import Mathlib

/-!
# Localization controller (`pro-tech/assets/js/i18n.js`)

A shallow embedding of the script's state and functions.

* The dictionary is the value produced by `response.json()`: an object whose
  keys are locale codes and whose values are nested mappings with string
  leaves.  An object is an association list in which the first entry of a key
  is the property.
* A property read `obj?.[k]` first looks at the own keys of `obj`; a key that
  is not an own key is looked up among the properties the value inherits from
  the built-in objects of the JavaScript host.  Those built-ins are not part of
  the script: they are described by a `Host` record, over which every general
  theorem is universally quantified.  `browserHost` describes the built-ins of
  a browser that such reads reach and is used where a statement is evaluated.
* The projection functions address nodes one by one; for them the document is
  the list of its nodes in document order, each with a node identity and the
  attributes and classes the script queries.  `initLanguageSwitcher` clones and
  replaces subtrees; it is modelled on the document tree (`Dom`, `Page`).
* `localStorage` is the log of the `setItem` calls, newest first.
* `setTimeout` callbacks are queued in `timers` and run, oldest first, by
  `runTimers`.
* Storage and DOM operations and reads of built-in properties are taken to
  complete normally; the only exceptions modelled are a failing `fetch` or
  `response.json()`, and a throwing string conversion inside a queued callback.
-/

namespace I18n

/-! ## Values -/

/-- A parsed translation tree: a string leaf or a nested mapping. -/
inductive Tr where
  | str (s : String)
  | obj (m : List (String × Tr))

/-- The loaded dictionary: locale code to nested mapping. -/
abbrev Dictionary := List (String × List (String × Tr))

/-- Built-in values of the JavaScript host, referred to by handles of type `N`.
`none` stands for `undefined` or `null`. -/
structure Host (N : Type) where
  /-- Property `k` that a plain object inherits from `Object.prototype`. -/
  objectProto : String → Option N
  /-- Property `k` of the primitive string `s` (`length`, an index, a method). -/
  stringProp : String → String → Option N
  /-- Property `k` of a built-in value. -/
  nativeProp : N → String → Option N
  /-- Truthiness of a built-in value. -/
  truthy : N → Bool
  /-- String conversion of a built-in value; `none` when the conversion throws. -/
  text : N → Option String

/-- Values that the script's property reads can yield. -/
inductive JsVal (N : Type) where
  | undefined
  | str (s : String)
  | obj (m : List (String × Tr))
  | native (n : N)

/-- Own-key lookup in an object (first entry wins). -/
def ownProp {α : Type} (k : String) : List (String × α) → Option α
  | [] => none
  | (k', v) :: rest => if k = k' then some v else ownProp k rest

/-- Own keys of an object. -/
def keys {α : Type} (m : List (String × α)) : List String := m.map Prod.fst

def JsVal.ofTr {N : Type} : Tr → JsVal N
  | .str s => .str s
  | .obj m => .obj m

def JsVal.ofNative {N : Type} : Option N → JsVal N
  | none => .undefined
  | some n => .native n

/-- JavaScript truthiness (`if (v)`, `!v`). -/
def JsVal.truthy {N : Type} (host : Host N) : JsVal N → Bool
  | .undefined => false
  | .str s => s ≠ ""
  | .obj _ => true
  | .native n => host.truthy n

/-- The optional-chaining read `obj?.[k]`. -/
def JsVal.get {N : Type} (host : Host N) (v : JsVal N) (k : String) : JsVal N :=
  match v with
  | .undefined => .undefined
  | .str s => .ofNative (host.stringProp s k)
  | .obj m =>
    match ownProp k m with
    | some t => .ofTr t
    | none => .ofNative (host.objectProto k)
  | .native n => .ofNative (host.nativeProp n k)

/-- String conversion performed by the `textContent` setter; `none` when it
throws.  A plain object converts through the inherited `toString`, giving
`"[object Object]"`; an own `toString` entry of a parsed object is never
callable, and then the conversion throws a `TypeError`. -/
def JsVal.toDOMString {N : Type} (host : Host N) : JsVal N → Option String
  | .undefined => some ""
  | .str s => some s
  | .obj m => if (ownProp "toString" m).isSome then none else some "[object Object]"
  | .native n => host.text n

/-- The segments of `s` between occurrences of `sep`, on character lists. -/
def splitChars (sep : Char) : List Char → List (List Char)
  | [] => [[]]
  | c :: cs =>
    if c = sep then [] :: splitChars sep cs
    else
      match splitChars sep cs with
      | [] => [[c]]
      | seg :: rest => (c :: seg) :: rest

/-- The call `key.split(".")`. -/
def split (key : String) : List String :=
  (splitChars '.' key.data).map String.mk

/-! ## State -/

/-- An element of the document. -/
structure Element where
  /-- Node identity. -/
  id : Nat
  /-- The attribute `data-i18n`, when present. -/
  dataI18n : Option String
  /-- Whether the element has class `current-lang`. -/
  isCurrentLang : Bool
  /-- Whether the element has class `lang-switcher-btn`. -/
  isSwitcherBtn : Bool
  textContent : String
  /-- The inline `style.opacity`. -/
  opacity : String
  /-- Number of click listeners registered on the node by line 142. -/
  clickListeners : Nat
  deriving DecidableEq

/-- Script state together with the parts of the page it reads and writes. -/
structure State (N : Type) where
  translations : Dictionary
  currentLang : String
  /-- Log of `localStorage.setItem` calls, newest first. -/
  localStorage : List (String × String)
  /-- The `lang` attribute of the document element. -/
  htmlLang : Option String
  document : List Element
  /-- Pending `setTimeout` callbacks, oldest first: node identity and the
  translation to write. -/
  timers : List (Nat × JsVal N)
  /-- Identity of the next node to be created; the functions on `State` create
  none. -/
  nextId : Nat

def getItem (k : String) (storage : List (String × String)) : Option String :=
  ownProp k storage

def setItem (k v : String) (storage : List (String × String)) : List (String × String) :=
  (k, v) :: storage

/-- The state at script start: lines 7-8. -/
def initialState {N : Type} (storage : List (String × String)) (doc : List Element)
    (nextId : Nat) : State N :=
  { translations := [], currentLang := "uz", localStorage := storage, htmlLang := none,
    document := doc, timers := [], nextId := nextId }

/-! ## Functions of the script -/

/-- The read `translations[lang]`. -/
def translationsAt {N : Type} (host : Host N) (d : Dictionary) (lang : String) : JsVal N :=
  match ownProp lang d with
  | some m => .obj m
  | none => .ofNative (host.objectProto lang)

/-- Lines 102-106. -/
def getNestedTranslation {N : Type} (host : Host N) (st : State N) (key : String) : JsVal N :=
  (split key).foldl (fun obj k => obj.get host k) (translationsAt host st.translations st.currentLang)

/-- Body of the `forEach` callback of lines 81-94 on one element: the element
after the synchronous part and the callback it schedules. -/
def translateElement {N : Type} (host : Host N) (st : State N) (e : Element) :
    Element × List (Nat × JsVal N) :=
  match e.dataI18n with
  | none => (e, [])
  | some key =>
    let translation := getNestedTranslation host st key
    if translation.truthy host then ({ e with opacity := "0" }, [(e.id, translation)])
    else (e, [])

/-- Lines 78-95. -/
def updatePageTranslations {N : Type} (host : Host N) (st : State N) : State N :=
  { st with
    document := st.document.map fun e => (translateElement host st e).1
    timers := st.timers ++ st.document.flatMap fun e => (translateElement host st e).2 }

/-- The label computed at line 113. -/
def nextLang (currentLang : String) : String :=
  if currentLang = "uz" then "RU" else "UZ"

/-- Lines 111-120. -/
def updateLanguageSwitcher {N : Type} (st : State N) : State N :=
  { st with
    document := st.document.map fun btn =>
      if btn.isCurrentLang then { btn with textContent := nextLang st.currentLang } else btn }

/-- The guard of line 57, negated: `translations[lang]` is truthy. -/
def languageFound {N : Type} (host : Host N) (st : State N) (lang : String) : Bool :=
  (translationsAt host st.translations lang).truthy host

/-- Lines 56-73. -/
def setLanguage {N : Type} (host : Host N) (lang : String) (st : State N) : State N :=
  if languageFound host st lang then
    updateLanguageSwitcher
      (updatePageTranslations host
        { st with
          currentLang := lang
          localStorage := setItem "selectedLanguage" lang st.localStorage
          htmlLang := some lang })
  else st

/-- The code computed at line 126. -/
def newLang (currentLang : String) : String :=
  if currentLang = "uz" then "ru" else "uz"

/-- Lines 125-128. -/
def toggleLanguage {N : Type} (host : Host N) (st : State N) : State N :=
  setLanguage host (newLang st.currentLang) st

/-- Effect of one queued callback of lines 89-92 on a node of the document: the
callback writes to the node it was created for.  When the string conversion
throws, the assignment to `textContent` aborts the callback. -/
def fireOn {N : Type} (host : Host N) (e : Element) (t : Nat × JsVal N) : Element :=
  if e.id = t.1 then
    match t.2.toDOMString host with
    | some s => { e with textContent := s, opacity := "1" }
    | none => e
  else e

/-- Effect of one queued callback on the document.  A callback whose node is no
longer in the document changes nothing that later queries can see. -/
def fireTimer {N : Type} (host : Host N) (doc : List Element) (t : Nat × JsVal N) :
    List Element :=
  doc.map fun e => fireOn host e t

/-- The fade delay elapses: every pending callback runs, oldest first. -/
def runTimers {N : Type} (host : Host N) (st : State N) : State N :=
  { st with document := st.timers.foldl (fireTimer host) st.document, timers := [] }

/-- The expression `localStorage.getItem("selectedLanguage") || "uz"`. -/
def savedLang (storage : List (String × String)) : String :=
  match getItem "selectedLanguage" storage with
  | some v => if v = "" then "uz" else v
  | none => "uz"

/-- One `try` body (lines 16-21 and 36-40): `fetchJson path` is the outcome of
`fetch(path)` followed by `response.json()`, an error when either rejects. -/
def attempt {N : Type} (host : Host N) (fetchJson : String → Except String Dictionary)
    (path : String) (st : State N) : Except String (State N) :=
  match fetchJson path with
  | .error err => .error err
  | .ok d => .ok (setLanguage host (savedLang st.localStorage) { st with translations := d })

/-- The fallback locations of lines 27-32. -/
def paths : List String :=
  ["../translations.json", "../../translations.json", "/translations.json",
   "/pro-tech/translations.json"]

/-- The loop of lines 34-48: the first path whose attempt succeeds ends the
function; when none does, only a message is logged. -/
def tryPaths {N : Type} (host : Host N) (fetchJson : String → Except String Dictionary) :
    List String → State N → Except String (State N)
  | [], st => .ok st
  | path :: rest, st =>
    match attempt host fetchJson path st with
    | .ok st1 => .ok st1
    | .error _ => tryPaths host fetchJson rest st

/-- Lines 13-50.  The result is `.error` exactly when an exception leaves the
function. -/
def loadTranslations {N : Type} (host : Host N) (fetchJson : String → Except String Dictionary)
    (st : State N) : Except String (State N) :=
  match attempt host fetchJson "translations.json" st with
  | .ok st1 => .ok st1
  | .error _ => tryPaths host fetchJson paths st

/-- The global `window.i18n.getCurrentLanguage`. -/
def getCurrentLanguage {N : Type} (st : State N) : String := st.currentLang

/-- The global `window.i18n.getTranslations`. -/
def getTranslations {N : Type} (st : State N) : Dictionary := st.translations

/-! ## Switcher initialization on the document tree

`initLanguageSwitcher` clones subtrees and replaces nodes in their parents, so it
is modelled on the tree of the document.  `State.document` is the list of the
nodes of that tree in document order. -/

/-- Sibling subtrees in document order: a node, its children, and the siblings
that follow it. -/
inductive Dom where
  | nil
  | node (elem : Element) (children : Dom) (siblings : Dom)
  deriving DecidableEq

/-- The nodes in document order. -/
def Dom.elements : Dom → List Element
  | .nil => []
  | .node e kids rest => e :: (kids.elements ++ rest.elements)

/-- The node identities in document order. -/
def Dom.ids (d : Dom) : List Nat := d.elements.map Element.id

/-- The trees of `a` followed by the trees of `b`. -/
def Dom.append : Dom → Dom → Dom
  | .nil, b => b
  | .node e kids rest, b => .node e kids (rest.append b)

/-- The same tree with `f` applied to every node. -/
def Dom.map (f : Element → Element) : Dom → Dom
  | .nil => .nil
  | .node e kids rest => .node (f e) (kids.map f) (rest.map f)

/-- The document, the trees taken out of it that the script still holds, and the
identity of the next node to be created. -/
structure Page where
  document : Dom
  detached : Dom
  nextId : Nat

/-- The call `document.querySelectorAll(".lang-switcher-btn")`: a static list of
nodes, by identity, in document order. -/
def querySwitcherBtns (d : Dom) : List Nat :=
  (d.elements.filter fun e => e.isSwitcherBtn).map Element.id

/-- The call `cloneNode(true)` on the trees of `d`: new nodes, numbered from `n`,
with the same attributes, classes, style and text and no listeners.  The second
component is the next unused identity. -/
def cloneDom : Nat → Dom → Dom × Nat
  | n, .nil => (.nil, n)
  | n, .node e kids rest =>
    let k := cloneDom (n + 1) kids
    let r := cloneDom k.2 rest
    (.node { e with id := n, clickListeners := 0 } k.1 r.1, r.2)

/-- Lines 139-146 inside one forest: the node with identity `b` is replaced, in
its parent, by a deep clone on which one click listener is registered; the node
itself, with its subtree, is taken out.  Result: the forest, the trees taken
out, and the next unused identity.  Nothing changes when `b` is not there. -/
def replaceBtn (b : Nat) : Nat → Dom → Dom × Dom × Nat
  | n, .nil => (.nil, .nil, n)
  | n, .node e kids rest =>
    if e.id = b then
      let c := cloneDom (n + 1) kids
      let r := replaceBtn b c.2 rest
      (.node { e with id := n, clickListeners := 1 } c.1 r.1, .node e kids r.2.1, r.2.2)
    else
      let k := replaceBtn b n kids
      let r := replaceBtn b k.2.2 rest
      (.node e k.1 r.1, k.2.1.append r.2.1, r.2.2)

/-- The body of the `forEach` callback of lines 136-148 for the listed node `b`,
wherever that node now is: still in the document, or inside a tree that an
earlier iteration took out of it.  (A listed node has a parent when its turn
comes: a node loses its parent only by being replaced, at its own turn.)  The
node taken out joins the detached trees. -/
def replaceWithClone (p : Page) (b : Nat) : Page :=
  let d := replaceBtn b p.nextId p.document
  let t := replaceBtn b d.2.2 p.detached
  { document := d.1, detached := (d.2.1.append t.2.1).append t.1, nextId := t.2.2 }

/-- Lines 133-149: the node list is taken once, then every listed node is
processed in order. -/
def initLanguageSwitcher (p : Page) : Page :=
  (querySwitcherBtns p.document).foldl replaceWithClone p

/-- Number of runs of the listener of line 142 caused by a click on the node
`target` (`none` when the node is not in the forest).  The listeners of the
target run; when it has none the event bubbles to the nearest ancestor that has
some, and `stopPropagation()` ends the dispatch there. -/
def listenersRun (target : Nat) : Dom → Option Nat
  | .nil => none
  | .node e kids rest =>
    if e.id = target then some e.clickListeners
    else
      match listenersRun target kids with
      | some k => some (if k = 0 then e.clickListeners else k)
      | none => listenersRun target rest

/-- A click on the node `target` of the document: every listener that runs
calls `toggleLanguage` once. -/
def click {N : Type} (host : Host N) (doc : Dom) (target : Nat) (st : State N) : State N :=
  (toggleLanguage host)^[(listenersRun target doc).getD 0] st

/-! ## Calls made after loading -/

/-- A call on the controller. -/
inductive Op where
  | setLanguage (lang : String)
  | toggleLanguage

/-- The codes a call may pass to `setLanguage`. -/
def Op.codes : Op → List String
  | .setLanguage lang => [lang]
  | .toggleLanguage => ["uz", "ru"]

def Op.apply {N : Type} (host : Host N) (st : State N) : Op → State N
  | .setLanguage lang => I18n.setLanguage host lang st
  | .toggleLanguage => I18n.toggleLanguage host st

/-- A sequence of calls, in order. -/
def run {N : Type} (host : Host N) (ops : List Op) (st : State N) : State N :=
  ops.foldl (Op.apply host) st

/-! ## Specification-side notions -/

/-- Upper-casing of the ASCII letters of a code. -/
def toUpperCase (s : String) : String := String.mk (s.data.map Char.toUpper)

/-- One step of the walk through a nested mapping: the entry of a mapping, no
value below a leaf. -/
def walkStep (cur : Option Tr) (k : String) : Option Tr :=
  match cur with
  | some (.obj m) => ownProp k m
  | _ => none

/-- The key, split on ".", walked one segment at a time through
`Dictionary[ActiveLocale]`. -/
def resolve (d : Dictionary) (locale key : String) : Option Tr :=
  (split key).foldl walkStep ((ownProp locale d).map Tr.obj)

/-- The listeners the specification expects after initialization: one on every
`.lang-switcher-btn` node that is not inside another one, none on the nodes
inside such a node, and the former ones elsewhere. -/
def afterInit : Dom → Dom
  | .nil => .nil
  | .node e kids rest =>
    if e.isSwitcherBtn then
      .node { e with clickListeners := 1 } (kids.map fun x => { x with clickListeners := 0 })
        (afterInit rest)
    else .node e (afterInit kids) (afterInit rest)

/-- The tree with node identities forgotten. -/
def anonymous (d : Dom) : Dom := d.map fun e => { e with id := 0 }

/-- No node of the forest has a click listener. -/
def Silent (d : Dom) : Prop := ∀ e ∈ d.elements, e.clickListeners = 0

/-- Every `.lang-switcher-btn` node that is not inside another one has exactly
one click listener and the nodes inside it have none. -/
def Settled : Dom → Prop
  | .nil => True
  | .node e kids rest =>
    (if e.isSwitcherBtn then e.clickListeners = 1 ∧ Silent kids else Settled kids) ∧ Settled rest

/-! ### Notions used in the proofs about initialization -/

/-- Identities from `n0` on (the nodes created by cloning) are all shown as `n0`. -/
def tagElem (n0 : Nat) (e : Element) : Element :=
  if e.id < n0 then e else { e with id := n0 }

/-- A clone as seen through `tagElem`. -/
def silenceElem (n0 : Nat) (e : Element) : Element :=
  { e with id := n0, clickListeners := 0 }

/-- The effect of `replaceBtn` as seen through `tagElem`. -/
def markBtn (n0 b : Nat) : Dom → Dom
  | .nil => .nil
  | .node e kids rest =>
    if e.id = b then
      .node { e with id := n0, clickListeners := 1 } (kids.map (silenceElem n0))
        (markBtn n0 b rest)
    else .node e (markBtn n0 b kids) (markBtn n0 b rest)

/-- The effect of a whole initialization as seen through `tagElem`. -/
def markAll (n0 : Nat) : Dom → Dom
  | .nil => .nil
  | .node e kids rest =>
    if e.isSwitcherBtn then
      .node { e with id := n0, clickListeners := 1 } (kids.map (silenceElem n0))
        (markAll n0 rest)
    else .node e (markAll n0 kids) (markAll n0 rest)

/-- The first dictionary the loader retrieves, trying the primary location and
then the fallback locations in order. -/
def firstRetrieved (fetchJson : String → Except String Dictionary) :
    List String → Option Dictionary
  | [] => none
  | path :: rest =>
    match fetchJson path with
    | .ok d => some d
    | .error _ => firstRetrieved fetchJson rest

/-! ## A concrete host -/

/-- The built-in values that property reads can reach from a plain object or a
primitive string without calling anything: the four prototype objects, built-in
functions (with their `name` and `length`), strings and numbers. -/
inductive Builtin where
  | objectPrototype
  | functionPrototype
  | stringPrototype
  | numberPrototype
  | function (name : String) (length : Nat)
  | string (s : String)
  | number (n : Nat)
  /-- A number that is not a natural number, given by its string form. -/
  | numberConstant (text : String)
  deriving DecidableEq

/-- A table entry found under `k`, as the built-in function it names. -/
def builtinMethod (table : List (String × String × Nat)) (k : String) : Option Builtin :=
  (ownProp k table).map fun entry => Builtin.function entry.1 entry.2

/-- Methods of `Object.prototype`: key, function name, `length`. -/
def objectPrototypeMethods : List (String × String × Nat) :=
  [("hasOwnProperty", "hasOwnProperty", 1), ("isPrototypeOf", "isPrototypeOf", 1),
   ("propertyIsEnumerable", "propertyIsEnumerable", 1), ("toLocaleString", "toLocaleString", 0),
   ("toString", "toString", 0), ("valueOf", "valueOf", 0),
   ("__defineGetter__", "__defineGetter__", 2), ("__defineSetter__", "__defineSetter__", 2),
   ("__lookupGetter__", "__lookupGetter__", 1), ("__lookupSetter__", "__lookupSetter__", 1)]

/-- Names of the properties of `Object.prototype` in a web browser. -/
def objectPrototypeKeys : List String :=
  "constructor" :: "__proto__" :: keys objectPrototypeMethods

/-- Methods of `Function.prototype`. -/
def functionPrototypeMethods : List (String × String × Nat) :=
  [("apply", "apply", 2), ("bind", "bind", 1), ("call", "call", 1), ("toString", "toString", 0)]

/-- Methods of `String.prototype`, Annex B included. -/
def stringPrototypeMethods : List (String × String × Nat) :=
  [("at", "at", 1), ("charAt", "charAt", 1), ("charCodeAt", "charCodeAt", 1),
   ("codePointAt", "codePointAt", 1), ("concat", "concat", 1), ("endsWith", "endsWith", 1),
   ("includes", "includes", 1), ("indexOf", "indexOf", 1), ("isWellFormed", "isWellFormed", 0),
   ("lastIndexOf", "lastIndexOf", 1), ("localeCompare", "localeCompare", 1),
   ("match", "match", 1), ("matchAll", "matchAll", 1), ("normalize", "normalize", 0),
   ("padEnd", "padEnd", 1), ("padStart", "padStart", 1), ("repeat", "repeat", 1),
   ("replace", "replace", 2), ("replaceAll", "replaceAll", 2), ("search", "search", 1),
   ("slice", "slice", 2), ("split", "split", 2), ("startsWith", "startsWith", 1),
   ("substr", "substr", 2), ("substring", "substring", 2),
   ("toLocaleLowerCase", "toLocaleLowerCase", 0), ("toLocaleUpperCase", "toLocaleUpperCase", 0),
   ("toLowerCase", "toLowerCase", 0), ("toString", "toString", 0),
   ("toUpperCase", "toUpperCase", 0), ("toWellFormed", "toWellFormed", 0), ("trim", "trim", 0),
   ("trimEnd", "trimEnd", 0), ("trimStart", "trimStart", 0), ("trimLeft", "trimStart", 0),
   ("trimRight", "trimEnd", 0), ("valueOf", "valueOf", 0), ("anchor", "anchor", 1),
   ("big", "big", 0), ("blink", "blink", 0), ("bold", "bold", 0), ("fixed", "fixed", 0),
   ("fontcolor", "fontcolor", 1), ("fontsize", "fontsize", 1), ("italics", "italics", 0),
   ("link", "link", 1), ("small", "small", 0), ("strike", "strike", 0), ("sub", "sub", 0),
   ("sup", "sup", 0)]

/-- Methods of `Number.prototype`. -/
def numberPrototypeMethods : List (String × String × Nat) :=
  [("toExponential", "toExponential", 1), ("toFixed", "toFixed", 1),
   ("toLocaleString", "toLocaleString", 0), ("toPrecision", "toPrecision", 1),
   ("toString", "toString", 1), ("valueOf", "valueOf", 0)]

/-- Function-valued properties of the constructor `Object`. -/
def objectStatics : List (String × String × Nat) :=
  [("assign", "assign", 2), ("create", "create", 2), ("defineProperties", "defineProperties", 2),
   ("defineProperty", "defineProperty", 3), ("entries", "entries", 1), ("freeze", "freeze", 1),
   ("fromEntries", "fromEntries", 1),
   ("getOwnPropertyDescriptor", "getOwnPropertyDescriptor", 2),
   ("getOwnPropertyDescriptors", "getOwnPropertyDescriptors", 1),
   ("getOwnPropertyNames", "getOwnPropertyNames", 1),
   ("getOwnPropertySymbols", "getOwnPropertySymbols", 1),
   ("getPrototypeOf", "getPrototypeOf", 1), ("groupBy", "groupBy", 2), ("hasOwn", "hasOwn", 2),
   ("is", "is", 2), ("isExtensible", "isExtensible", 1), ("isFrozen", "isFrozen", 1),
   ("isSealed", "isSealed", 1), ("keys", "keys", 1),
   ("preventExtensions", "preventExtensions", 1), ("seal", "seal", 1),
   ("setPrototypeOf", "setPrototypeOf", 2), ("values", "values", 1)]

/-- Function-valued properties of the constructor `String`. -/
def stringStatics : List (String × String × Nat) :=
  [("fromCharCode", "fromCharCode", 1), ("fromCodePoint", "fromCodePoint", 1), ("raw", "raw", 1)]

/-- Function-valued properties of the constructor `Number`. -/
def numberStatics : List (String × String × Nat) :=
  [("isFinite", "isFinite", 1), ("isInteger", "isInteger", 1), ("isNaN", "isNaN", 1),
   ("isSafeInteger", "isSafeInteger", 1), ("parseFloat", "parseFloat", 1),
   ("parseInt", "parseInt", 2)]

/-- Number-valued properties of the constructor `Number`. -/
def numberConstants : List (String × Builtin) :=
  [("EPSILON", .numberConstant "2.220446049250313e-16"),
   ("MAX_SAFE_INTEGER", .number 9007199254740991),
   ("MAX_VALUE", .numberConstant "1.7976931348623157e+308"),
   ("MIN_SAFE_INTEGER", .numberConstant "-9007199254740991"),
   ("MIN_VALUE", .numberConstant "5e-324"), ("NaN", .numberConstant "NaN"),
   ("NEGATIVE_INFINITY", .numberConstant "-Infinity"),
   ("POSITIVE_INFINITY", .numberConstant "Infinity")]

/-- A read that reaches `Object.prototype`; `proto` is what the accessor
`__proto__` returns for the receiver. -/
def fromObjectPrototype (proto : Option Builtin) (k : String) : Option Builtin :=
  if k = "__proto__" then proto
  else if k = "constructor" then some (.function "Object" 1)
  else builtinMethod objectPrototypeMethods k

/-- A read that reaches `Function.prototype`. -/
def fromFunctionPrototype (proto : Option Builtin) (k : String) : Option Builtin :=
  if k = "constructor" then some (.function "Function" 1)
  else
    match builtinMethod functionPrototypeMethods k with
    | some f => some f
    | none => fromObjectPrototype proto k

/-- A read that reaches `String.prototype`. -/
def fromStringPrototype (proto : Option Builtin) (k : String) : Option Builtin :=
  if k = "constructor" then some (.function "String" 1)
  else
    match builtinMethod stringPrototypeMethods k with
    | some f => some f
    | none => fromObjectPrototype proto k

/-- A read that reaches `Number.prototype`. -/
def fromNumberPrototype (proto : Option Builtin) (k : String) : Option Builtin :=
  if k = "constructor" then some (.function "Number" 1)
  else
    match builtinMethod numberPrototypeMethods k with
    | some f => some f
    | none => fromObjectPrototype proto k

/-- The UTF-16 code units of a string: a character of the basic plane, or
`none` for each half of a surrogate pair. -/
def codeUnits : List Char → List (Option Char)
  | [] => []
  | c :: cs => if c.toNat < 65536 then some c :: codeUnits cs else none :: none :: codeUnits cs

/-- The value of a key that is a canonical array index ("0", "7", "12"). -/
def arrayIndex (k : String) : Option Nat :=
  if k = "0" then some 0
  else
    match k.data with
    | [] => none
    | c :: cs =>
      if c = '0' then none
      else if (c :: cs).all Char.isDigit then
        some ((c :: cs).foldl (fun acc d => 10 * acc + (d.toNat - 48)) 0)
      else none

/-- Property `k` of the primitive string `s`: `length`, a code unit, or a
property inherited from `String.prototype`.  Half of a surrogate pair cannot be
held in a `String` and is shown as U+FFFD. -/
def stringRead (s k : String) : Option Builtin :=
  if k = "length" then some (.number (codeUnits s.data).length)
  else
    match arrayIndex k with
    | some i =>
      match (codeUnits s.data).get? i with
      | some (some c) => some (.string (String.singleton c))
      | some none => some (.string "�")
      | none => fromStringPrototype (some .stringPrototype) k
    | none => fromStringPrototype (some .stringPrototype) k

/-- Own properties of the four constructors besides `name` and `length`. -/
def constructorRead (name k : String) : Option Builtin :=
  if name = "Object" then
    if k = "prototype" then some .objectPrototype else builtinMethod objectStatics k
  else if name = "Function" then
    if k = "prototype" then some .functionPrototype else none
  else if name = "String" then
    if k = "prototype" then some .stringPrototype else builtinMethod stringStatics k
  else if name = "Number" then
    if k = "prototype" then some .numberPrototype
    else
      match builtinMethod numberStatics k with
      | some f => some f
      | none => ownProp k numberConstants
  else none

/-- Property `k` of a built-in value. -/
def builtinRead (v : Builtin) (k : String) : Option Builtin :=
  match v with
  | .objectPrototype => fromObjectPrototype none k
  | .functionPrototype =>
    if k = "name" then some (.string "")
    else if k = "length" then some (.number 0)
    else fromFunctionPrototype (some .objectPrototype) k
  | .stringPrototype =>
    if k = "length" then some (.number 0)
    else fromStringPrototype (some .objectPrototype) k
  | .numberPrototype => fromNumberPrototype (some .objectPrototype) k
  | .function name length =>
    if k = "name" then some (.string name)
    else if k = "length" then some (.number length)
    else
      match constructorRead name k with
      | some v1 => some v1
      | none => fromFunctionPrototype (some .functionPrototype) k
  | .string s => stringRead s k
  | .number _ => fromNumberPrototype (some .numberPrototype) k
  | .numberConstant _ => fromNumberPrototype (some .numberPrototype) k

/-- Truthiness of a built-in value. -/
def builtinTruthy : Builtin → Bool
  | .string s => s ≠ ""
  | .number n => n ≠ 0
  | .numberConstant text => text ≠ "NaN"
  | _ => true

/-- String conversion of a built-in value; function text is as printed by V8. -/
def builtinText : Builtin → Option String
  | .objectPrototype => some "[object Object]"
  | .functionPrototype => some "function () \x7b [native code] \x7d"
  | .stringPrototype => some ""
  | .numberPrototype => some "0"
  | .function name _ => some ("function " ++ name ++ "() \x7b [native code] \x7d")
  | .string s => some s
  | .number n => some (toString n)
  | .numberConstant text => some text

/-- The built-ins of a current web browser (ECMAScript 2024 with Annex B) as far
as string-keyed reads that start at a plain object or a primitive string reach
them: `Object.prototype`, `Function.prototype`, `String.prototype`,
`Number.prototype`, the constructors `Object`, `Function`, `String` and `Number`,
their methods, and the strings and numbers those reads produce.  The restricted
accessors `caller` and `arguments` of functions, whose read throws, are outside
the embedding and are absent here. -/
def browserHost : Host Builtin where
  objectProto k := fromObjectPrototype (some .objectPrototype) k
  stringProp s k := stringRead s k
  nativeProp v k := builtinRead v k
  truthy := builtinTruthy
  text := builtinText

/-! ## Sample page -/

/-- A dictionary with the two locales of the site. -/
def sampleDictionary : Dictionary :=
  [("uz", [("nav", .obj [("home", .str "Bosh sahifa")])]),
   ("ru", [("nav", .obj [("home", .str "Glavnaya")])])]

/-- A page with a translated heading, a switcher label and a switcher button. -/
def sampleDocument : List Element :=
  [{ id := 0, dataI18n := some "nav.home", isCurrentLang := false, isSwitcherBtn := false,
     textContent := "Home", opacity := "", clickListeners := 0 },
   { id := 1, dataI18n := none, isCurrentLang := true, isSwitcherBtn := false,
     textContent := "", opacity := "", clickListeners := 0 },
   { id := 2, dataI18n := none, isCurrentLang := false, isSwitcherBtn := true,
     textContent := "", opacity := "", clickListeners := 3 }]

/-- The sample page once the sample dictionary is stored. -/
def sampleState : State Builtin :=
  { initialState [] sampleDocument 3 with translations := sampleDictionary }

/-- The switcher label of the sample page after a change to "ru". -/
def sampleLabel : Element :=
  { id := 1, dataI18n := none, isCurrentLang := true, isSwitcherBtn := false,
    textContent := "UZ", opacity := "", clickListeners := 0 }

/-- The translated heading of the sample page once "uz" is shown. -/
def sampleHeading : Element :=
  { id := 0, dataI18n := some "nav.home", isCurrentLang := false, isSwitcherBtn := false,
    textContent := "Bosh sahifa", opacity := "1", clickListeners := 0 }

/-- A page whose only element has a key that resolves to the empty string. -/
def emptyValueState : State Builtin :=
  { initialState []
      [{ id := 0, dataI18n := some "nav.home", isCurrentLang := false, isSwitcherBtn := false,
         textContent := "Home", opacity := "1", clickListeners := 0 }] 1 with
    translations := [("uz", [("nav", .obj [("home", .str "")])])] }

/-- A page whose only element has the key "nav.constructor": the segment
"constructor" is not an entry of the mapping under "nav". -/
def inheritedKeyState : State Builtin :=
  { initialState []
      [{ id := 0, dataI18n := some "nav.constructor", isCurrentLang := false,
         isSwitcherBtn := false, textContent := "Home", opacity := "1", clickListeners := 0 }] 1 with
    translations := [("uz", [("nav", .obj [("home", .str "Bosh sahifa")])])] }

/-- A dictionary whose only locale code is the empty string. -/
def emptyCodeDictionary : Dictionary := [("", [("title", .str "Salom")])]

/-- A dictionary without the default locale. -/
def russianOnly : Dictionary := [("ru", [("title", .str "Privet")])]

/-- A page with a switcher button that contains another one and stale
listeners from earlier initializations. -/
def nestedPage : Page :=
  { document :=
      .node { id := 0, dataI18n := none, isCurrentLang := false, isSwitcherBtn := true,
              textContent := "", opacity := "", clickListeners := 2 }
        (.node { id := 1, dataI18n := none, isCurrentLang := true, isSwitcherBtn := true,
                 textContent := "RU", opacity := "", clickListeners := 2 } .nil .nil)
        (.node { id := 2, dataI18n := some "nav.home", isCurrentLang := false,
                 isSwitcherBtn := false, textContent := "Home", opacity := "",
                 clickListeners := 0 } .nil .nil)
    detached := .nil
    nextId := 3 }

/-- The inner switcher button of `nestedPage` after two initializations. -/
def nestedInnerButton : Element :=
  { id := 7, dataI18n := none, isCurrentLang := true, isSwitcherBtn := true,
    textContent := "RU", opacity := "", clickListeners := 0 }

/-- A network on which only the last fallback location answers, with the
sample dictionary. -/
def lastPathOnly : String → Except String Dictionary := fun path =>
  if path = "/pro-tech/translations.json" then .ok sampleDictionary
  else .error "TypeError: Failed to fetch"

/-- A network on which every request fails. -/
def offline : String → Except String Dictionary := fun _ => .error "TypeError: Failed to fetch"

/-! ## Basic facts -/

theorem ownProp_of_mem_keys {α : Type} (k : String) (m : List (String × α))
    (h : k ∈ keys m) : ∃ v, ownProp k m = some v := by
  induction m with
  | nil => simp [keys] at h
  | cons p rest ih =>
    obtain ⟨k1, v1⟩ := p
    by_cases hk : k = k1
    · exact ⟨v1, by simp [ownProp, hk]⟩
    · have hrest : k ∈ keys rest := by
        simp only [keys, List.map_cons, List.mem_cons] at h
        rcases h with h | h
        · exact absurd h hk
        · exact h
      obtain ⟨v, hv⟩ := ih hrest
      exact ⟨v, by simp [ownProp, hk, hv]⟩

theorem ownProp_eq_none {α : Type} (k : String) (m : List (String × α))
    (h : k ∉ keys m) : ownProp k m = none := by
  induction m with
  | nil => rfl
  | cons p rest ih =>
    obtain ⟨k1, v1⟩ := p
    simp only [keys, List.map_cons, List.mem_cons, not_or] at h
    simp only [ownProp, h.1, if_false]
    exact ih h.2

theorem mem_keys_of_ownProp {α : Type} (k : String) (m : List (String × α)) (v : α)
    (h : ownProp k m = some v) : k ∈ keys m := by
  by_contra hk
  rw [ownProp_eq_none k m hk] at h
  exact Option.noConfusion h

theorem languageFound_of_mem_keys {N : Type} (host : Host N) (st : State N) (c : String)
    (h : c ∈ keys st.translations) : languageFound host st c = true := by
  obtain ⟨m, hm⟩ := ownProp_of_mem_keys c st.translations h
  simp [languageFound, translationsAt, hm, JsVal.truthy]

theorem languageFound_eq_false {N : Type} (host : Host N) (st : State N) (c : String)
    (hown : c ∉ keys st.translations) (hinh : host.objectProto c = none) :
    languageFound host st c = false := by
  simp [languageFound, translationsAt, ownProp_eq_none c _ hown, hinh, JsVal.ofNative,
    JsVal.truthy]

theorem setLanguage_found {N : Type} (host : Host N) (lang : String) (st : State N)
    (h : languageFound host st lang = true) :
    setLanguage host lang st =
      updateLanguageSwitcher
        (updatePageTranslations host
          { st with
            currentLang := lang
            localStorage := setItem "selectedLanguage" lang st.localStorage
            htmlLang := some lang }) := by
  simp [setLanguage, h]

theorem setLanguage_not_found {N : Type} (host : Host N) (lang : String) (st : State N)
    (h : languageFound host st lang = false) : setLanguage host lang st = st := by
  simp [setLanguage, h]

/-- A code that is neither a top-level key nor an inherited name is refused:
nothing changes, storage included. -/
theorem setLanguage_refused {N : Type} (host : Host N) (c : String) (st : State N)
    (hown : c ∉ keys st.translations) (hinh : host.objectProto c = none) :
    setLanguage host c st = st :=
  setLanguage_not_found host c st (languageFound_eq_false host st c hown hinh)

theorem setLanguage_translations {N : Type} (host : Host N) (lang : String) (st : State N) :
    (setLanguage host lang st).translations = st.translations := by
  unfold setLanguage
  split <;> rfl

theorem setLanguage_currentLang_found {N : Type} (host : Host N) (lang : String)
    (st : State N) (h : languageFound host st lang = true) :
    (setLanguage host lang st).currentLang = lang := by
  rw [setLanguage_found host lang st h]
  rfl

theorem newLang_ne (c : String) : newLang c ≠ c := by
  unfold newLang
  split
  · rename_i h
    rw [h]
    decide
  · rename_i h
    exact fun h2 => h h2.symm

theorem nextLang_eq_toUpperCase (c : String) : nextLang c = toUpperCase (newLang c) := by
  unfold nextLang newLang
  split <;> decide

theorem toggleLanguage_eq {N : Type} (host : Host N) (st : State N) :
    toggleLanguage host st = setLanguage host (newLang st.currentLang) st := rfl

theorem tryPaths_all_fail {N : Type} (host : Host N)
    (fetchJson : String → Except String Dictionary) (st : State N) (ps : List String)
    (h : ∀ p ∈ ps, ∃ err, fetchJson p = .error err) : tryPaths host fetchJson ps st = .ok st := by
  induction ps with
  | nil => rfl
  | cons p rest ih =>
    obtain ⟨err, herr⟩ := h p (List.mem_cons_self p rest)
    simp only [tryPaths, attempt, herr]
    exact ih fun q hq => h q (List.mem_cons_of_mem p hq)

theorem updateLanguageSwitcher_label {N : Type} (st : State N) :
    ∀ btn ∈ (updateLanguageSwitcher st).document, btn.isCurrentLang = true →
      btn.textContent = nextLang st.currentLang := by
  intro btn hmem hcls
  simp only [updateLanguageSwitcher, List.mem_map] at hmem
  obtain ⟨b0, _, hb0⟩ := hmem
  by_cases hc : b0.isCurrentLang = true
  · rw [if_pos hc] at hb0
    rw [← hb0]
  · rw [if_neg hc] at hb0
    rw [← hb0] at hcls
    exact absurd hcls hc

/-! ### Resolution -/

theorem foldl_walkStep_none (segs : List String) : segs.foldl walkStep none = none := by
  induction segs with
  | nil => rfl
  | cons k ks ih => exact ih

theorem foldl_get_of_walk {N : Type} (host : Host N) (segs : List String) (t r : Tr)
    (h : segs.foldl walkStep (some t) = some r) :
    segs.foldl (fun obj k => JsVal.get host obj k) (JsVal.ofTr t) = JsVal.ofTr r := by
  induction segs generalizing t with
  | nil =>
    simp only [List.foldl_nil, Option.some.injEq] at h
    rw [h]
    rfl
  | cons k ks ih =>
    simp only [List.foldl_cons] at h ⊢
    cases t with
    | str s =>
      simp only [walkStep] at h
      rw [foldl_walkStep_none] at h
      exact Option.noConfusion h
    | obj m =>
      cases hk : ownProp k m with
      | none =>
        simp only [walkStep, hk] at h
        rw [foldl_walkStep_none] at h
        exact Option.noConfusion h
      | some t1 =>
        simp only [walkStep, hk] at h
        have hget : JsVal.get host (JsVal.ofTr (Tr.obj m)) k = JsVal.ofTr t1 := by
          simp [JsVal.get, JsVal.ofTr, hk]
        rw [hget]
        exact ih t1 h

theorem getNestedTranslation_of_resolve {N : Type} (host : Host N) (st : State N)
    (key : String) (r : Tr) (h : resolve st.translations st.currentLang key = some r) :
    getNestedTranslation host st key = JsVal.ofTr r := by
  unfold resolve at h
  cases hd : ownProp st.currentLang st.translations with
  | none =>
    rw [hd] at h
    simp only [Option.map_none'] at h
    rw [foldl_walkStep_none] at h
    exact Option.noConfusion h
  | some m =>
    rw [hd] at h
    simp only [Option.map_some'] at h
    have hbase : translationsAt host st.translations st.currentLang = JsVal.ofTr (Tr.obj m) := by
      simp [translationsAt, hd, JsVal.ofTr]
    unfold getNestedTranslation
    rw [hbase]
    exact foldl_get_of_walk host _ _ _ h

/-! ### Timers -/

theorem fireOn_id {N : Type} (host : Host N) (e : Element) (t : Nat × JsVal N) :
    (fireOn host e t).id = e.id := by
  unfold fireOn
  split
  · split <;> rfl
  · rfl

theorem foldl_fireOn_id {N : Type} (host : Host N) (ts : List (Nat × JsVal N)) (e : Element) :
    (ts.foldl (fireOn host) e).id = e.id := by
  induction ts generalizing e with
  | nil => rfl
  | cons t rest ih =>
    simp only [List.foldl_cons]
    rw [ih, fireOn_id]

theorem foldl_fireTimer {N : Type} (host : Host N) (ts : List (Nat × JsVal N))
    (doc : List Element) :
    ts.foldl (fireTimer host) doc = doc.map fun e => ts.foldl (fireOn host) e := by
  induction ts generalizing doc with
  | nil => simp
  | cons t rest ih =>
    simp only [List.foldl_cons]
    rw [ih]
    simp [fireTimer, List.map_map, Function.comp_def]

theorem foldl_fireOn_other {N : Type} (host : Host N) (ts : List (Nat × JsVal N))
    (e : Element) (h : ∀ t ∈ ts, t.1 ≠ e.id) : ts.foldl (fireOn host) e = e := by
  induction ts with
  | nil => rfl
  | cons t rest ih =>
    simp only [List.foldl_cons]
    have ht : ¬ e.id = t.1 := fun heq => h t (List.mem_cons_self _ _) heq.symm
    have hfire : fireOn host e t = e := by simp [fireOn, ht]
    rw [hfire]
    exact ih fun u hu => h u (List.mem_cons_of_mem _ hu)

/-- The last callback queued for a node decides its text. -/
theorem foldl_fireOn_last {N : Type} (host : Host N) (ts1 ts2 : List (Nat × JsVal N))
    (v : JsVal N) (s : String) (e : Element) (hv : v.toDOMString host = some s)
    (hlast : ∀ t ∈ ts2, t.1 ≠ e.id) :
    ((ts1 ++ (e.id, v) :: ts2).foldl (fireOn host) e).textContent = s ∧
      ((ts1 ++ (e.id, v) :: ts2).foldl (fireOn host) e).opacity = "1" := by
  rw [List.foldl_append, List.foldl_cons]
  have hid : (ts1.foldl (fireOn host) e).id = e.id := foldl_fireOn_id host ts1 e
  have hfire : fireOn host (ts1.foldl (fireOn host) e) (e.id, v) =
      { ts1.foldl (fireOn host) e with textContent := s, opacity := "1" } := by
    simp [fireOn, hid, hv]
  rw [hfire, foldl_fireOn_other host ts2 _ (fun t ht => by simpa [hid] using hlast t ht)]
  exact ⟨rfl, rfl⟩

theorem fireTimer_written {N : Type} (host : Host N) (doc : List Element)
    (ts1 ts2 : List (Nat × JsVal N)) (i : Nat) (v : JsVal N) (s : String)
    (hv : v.toDOMString host = some s) (hlast : ∀ t ∈ ts2, t.1 ≠ i) :
    ∀ e ∈ (ts1 ++ (i, v) :: ts2).foldl (fireTimer host) doc, e.id = i →
      e.textContent = s ∧ e.opacity = "1" := by
  intro e hmem hid
  rw [foldl_fireTimer] at hmem
  obtain ⟨x, _, hx⟩ := List.mem_map.1 hmem
  have hxid : x.id = i := by
    rw [← hid, ← hx, foldl_fireOn_id]
  subst hxid
  rw [← hx]
  exact foldl_fireOn_last host ts1 ts2 v s x hv hlast

theorem foldl_fireTimer_ids {N : Type} (host : Host N) (ts : List (Nat × JsVal N))
    (doc : List Element) :
    ((ts.foldl (fireTimer host) doc).map Element.id) = doc.map Element.id := by
  rw [foldl_fireTimer, List.map_map]
  exact List.map_congr_left fun e _ => foldl_fireOn_id host ts e

/-! ### Projection -/

theorem translateElement_id {N : Type} (host : Host N) (st : State N) (e : Element) :
    (translateElement host st e).1.id = e.id := by
  cases hkey : e.dataI18n with
  | none => simp [translateElement, hkey]
  | some key =>
    by_cases ht : (getNestedTranslation host st key).truthy host = true
    · simp [translateElement, hkey, ht]
    · simp [translateElement, hkey, ht]

theorem translateElement_timer_id {N : Type} (host : Host N) (st : State N) (e : Element) :
    ∀ t ∈ (translateElement host st e).2, t.1 = e.id := by
  intro t ht
  cases hkey : e.dataI18n with
  | none => simp [translateElement, hkey] at ht
  | some key =>
    by_cases htr : (getNestedTranslation host st key).truthy host = true
    · simp only [translateElement, hkey, htr, if_true, List.mem_singleton] at ht
      rw [ht]
    · simp [translateElement, hkey, htr] at ht

theorem translateElement_timer {N : Type} (host : Host N) (st : State N) (e : Element)
    (key : String) (hkey : e.dataI18n = some key)
    (htruthy : (getNestedTranslation host st key).truthy host = true) :
    (translateElement host st e).2 = [(e.id, getNestedTranslation host st key)] := by
  simp [translateElement, hkey, htruthy]

theorem updatePageTranslations_ids {N : Type} (host : Host N) (st : State N) :
    (updatePageTranslations host st).document.map Element.id = st.document.map Element.id := by
  simp only [updatePageTranslations, List.map_map]
  exact List.map_congr_left fun e _ => translateElement_id host st e

theorem updateLanguageSwitcher_ids {N : Type} (st : State N) :
    (updateLanguageSwitcher st).document.map Element.id = st.document.map Element.id := by
  simp only [updateLanguageSwitcher, List.map_map]
  refine List.map_congr_left fun e _ => ?_
  simp only [Function.comp]
  split <;> rfl

/-- After `updatePageTranslations`, the queue ends with the callback of a
translated element followed only by callbacks of other nodes. -/
theorem updatePageTranslations_timers {N : Type} (host : Host N) (st : State N)
    (e : Element) (key : String) (hids : (st.document.map Element.id).Nodup)
    (he : e ∈ st.document) (hkey : e.dataI18n = some key)
    (htruthy : (getNestedTranslation host st key).truthy host = true) :
    ∃ ts1 ts2, (updatePageTranslations host st).timers =
        ts1 ++ (e.id, getNestedTranslation host st key) :: ts2 ∧
      ∀ t ∈ ts2, t.1 ≠ e.id := by
  obtain ⟨l1, l2, hsplit⟩ := List.append_of_mem he
  refine ⟨st.timers ++ l1.flatMap (fun x => (translateElement host st x).2),
    l2.flatMap (fun x => (translateElement host st x).2), ?_, ?_⟩
  · simp only [updatePageTranslations]
    rw [hsplit, List.flatMap_append, List.flatMap_cons,
      translateElement_timer host st e key hkey htruthy]
    simp
  · intro t ht
    obtain ⟨x, hx, htx⟩ := List.mem_flatMap.1 ht
    rw [translateElement_timer_id host st x t htx]
    rw [hsplit, List.map_append, List.map_cons] at hids
    have hnd := (List.nodup_append.1 hids).2.1
    have hnot := (List.nodup_cons.1 hnd).1
    intro heq
    exact hnot (heq ▸ List.mem_map_of_mem Element.id hx)

/-- Once the queue has run, every node with the identity of a translated
element shows the translation, whatever was done to the document between the
projection and the delay as long as identities and the queue are kept. -/
theorem written_after_projection {N : Type} (host : Host N) (st : State N) (e : Element)
    (key s : String) (hids : (st.document.map Element.id).Nodup) (he : e ∈ st.document)
    (hkey : e.dataI18n = some key)
    (hres : resolve st.translations st.currentLang key = some (.str s)) (hs : s ≠ "")
    (u : State N) (htimers : u.timers = (updatePageTranslations host st).timers)
    (hdoc : u.document.map Element.id = st.document.map Element.id) :
    (∃ e1 ∈ (runTimers host u).document, e1.id = e.id) ∧
      ∀ e1 ∈ (runTimers host u).document, e1.id = e.id →
        e1.textContent = s ∧ e1.opacity = "1" := by
  have hval : getNestedTranslation host st key = JsVal.str s :=
    getNestedTranslation_of_resolve host st key (.str s) hres
  have htruthy : (getNestedTranslation host st key).truthy host = true := by
    rw [hval]
    simp [JsVal.truthy, hs]
  obtain ⟨ts1, ts2, hts, hlast⟩ := updatePageTranslations_timers host st e key hids he hkey htruthy
  rw [hval] at hts
  constructor
  · have hmem : e.id ∈ (runTimers host u).document.map Element.id := by
      simp only [runTimers]
      rw [foldl_fireTimer_ids, hdoc]
      exact List.mem_map_of_mem Element.id he
    obtain ⟨e1, h1, h2⟩ := List.mem_map.1 hmem
    exact ⟨e1, h1, h2⟩
  · intro e1 hmem hid
    simp only [runTimers] at hmem
    rw [htimers, hts] at hmem
    exact fireTimer_written host u.document ts1 ts2 e.id (.str s) s rfl hlast e1 hmem hid

/-! ### Loader -/

theorem tryPaths_of_firstRetrieved {N : Type} (host : Host N)
    (fetchJson : String → Except String Dictionary) (st : State N) (d : Dictionary)
    (ps : List String) (h : firstRetrieved fetchJson ps = some d) :
    tryPaths host fetchJson ps st =
      .ok (setLanguage host (savedLang st.localStorage) { st with translations := d }) := by
  induction ps with
  | nil => exact Option.noConfusion h
  | cons p rest ih =>
    cases hp : fetchJson p with
    | error err =>
      simp only [firstRetrieved, hp] at h
      simp only [tryPaths, attempt, hp]
      exact ih h
    | ok d1 =>
      simp only [firstRetrieved, hp, Option.some.injEq] at h
      simp only [tryPaths, attempt, hp, h]

theorem loadTranslations_of_firstRetrieved {N : Type} (host : Host N)
    (fetchJson : String → Except String Dictionary) (st : State N) (d : Dictionary)
    (h : firstRetrieved fetchJson ("translations.json" :: paths) = some d) :
    loadTranslations host fetchJson st =
      .ok (setLanguage host (savedLang st.localStorage) { st with translations := d }) := by
  cases hp : fetchJson "translations.json" with
  | error err =>
    simp only [firstRetrieved, hp] at h
    simp only [loadTranslations, attempt, hp]
    exact tryPaths_of_firstRetrieved host fetchJson st d paths h
  | ok d1 =>
    simp only [firstRetrieved, hp, Option.some.injEq] at h
    simp only [loadTranslations, attempt, hp, h]

theorem setLanguage_localStorage_found {N : Type} (host : Host N) (lang : String)
    (st : State N) (h : languageFound host st lang = true) :
    (setLanguage host lang st).localStorage = setItem "selectedLanguage" lang st.localStorage := by
  rw [setLanguage_found host lang st h]
  rfl

theorem savedLang_setItem (c : String) (storage : List (String × String)) (hc : c ≠ "") :
    savedLang (setItem "selectedLanguage" c storage) = c := by
  simp [savedLang, getItem, setItem, ownProp, hc]

theorem mem_keys_of_languageFound {N : Type} (host : Host N) (st : State N) (c : String)
    (hfound : languageFound host st c = true) (hinh : host.objectProto c = none) :
    c ∈ keys st.translations := by
  by_contra hown
  rw [languageFound_eq_false host st c hown hinh] at hfound
  exact Bool.noConfusion hfound

/-! ### Invariant of the active locale -/

theorem setLanguage_keeps_locale_known {N : Type} (host : Host N) (c : String) (st : State N)
    (hinh : host.objectProto c = none)
    (hinv : st.currentLang = "uz" ∨ st.currentLang ∈ keys st.translations) :
    (setLanguage host c st).currentLang = "uz" ∨
      (setLanguage host c st).currentLang ∈ keys (setLanguage host c st).translations := by
  rw [setLanguage_translations]
  cases hfound : languageFound host st c with
  | false =>
    rw [setLanguage_not_found host c st hfound]
    exact hinv
  | true =>
    rw [setLanguage_currentLang_found host c st hfound]
    exact Or.inr (mem_keys_of_languageFound host st c hfound hinh)

theorem apply_keeps_locale_known {N : Type} (host : Host N) (op : Op) (st : State N)
    (hsafe : ∀ c ∈ op.codes, host.objectProto c = none)
    (hinv : st.currentLang = "uz" ∨ st.currentLang ∈ keys st.translations) :
    (op.apply host st).currentLang = "uz" ∨
      (op.apply host st).currentLang ∈ keys (op.apply host st).translations := by
  cases op with
  | setLanguage lang =>
    exact setLanguage_keeps_locale_known host lang st (hsafe lang (by simp [Op.codes])) hinv
  | toggleLanguage =>
    have hnew : host.objectProto (newLang st.currentLang) = none := by
      unfold newLang
      split
      · exact hsafe "ru" (by simp [Op.codes])
      · exact hsafe "uz" (by simp [Op.codes])
    exact setLanguage_keeps_locale_known host _ st hnew hinv

theorem apply_translations {N : Type} (host : Host N) (op : Op) (st : State N) :
    (op.apply host st).translations = st.translations := by
  cases op with
  | setLanguage lang => exact setLanguage_translations host lang st
  | toggleLanguage => exact setLanguage_translations host _ st

theorem run_keeps_locale_known {N : Type} (host : Host N) (ops : List Op) (st : State N)
    (hsafe : ∀ c ∈ ops.flatMap Op.codes, host.objectProto c = none)
    (hinv : st.currentLang = "uz" ∨ st.currentLang ∈ keys st.translations) :
    (run host ops st).translations = st.translations ∧
      ((run host ops st).currentLang = "uz" ∨
        (run host ops st).currentLang ∈ keys st.translations) := by
  induction ops generalizing st with
  | nil => exact ⟨rfl, hinv⟩
  | cons op rest ih =>
    have hop : ∀ c ∈ op.codes, host.objectProto c = none := fun c hc =>
      hsafe c (by simp only [List.flatMap_cons, List.mem_append]; exact Or.inl hc)
    have hrest : ∀ c ∈ rest.flatMap Op.codes, host.objectProto c = none := fun c hc =>
      hsafe c (by simp only [List.flatMap_cons, List.mem_append]; exact Or.inr hc)
    have hstep := ih (op.apply host st) hrest (apply_keeps_locale_known host op st hop hinv)
    rw [apply_translations] at hstep
    exact hstep

/-! ### The concrete host -/

/-- The names a plain object inherits in `browserHost` are the twelve property
names of `Object.prototype`, and each inherited value is truthy. -/
theorem browserHost_objectProto (k : String) :
    ((browserHost.objectProto k).isSome = true ↔ k ∈ objectPrototypeKeys) ∧
      ∀ v, browserHost.objectProto k = some v → browserHost.truthy v = true := by
  have hcases : k ∈ objectPrototypeKeys ∨ k ∉ objectPrototypeKeys := Classical.em _
  rcases hcases with h | h
  · simp only [objectPrototypeKeys, keys, objectPrototypeMethods, List.map_cons, List.map_nil,
      List.mem_cons, List.mem_singleton, List.not_mem_nil, or_false] at h
    rcases h with h | h | h | h | h | h | h | h | h | h | h | h <;> subst h <;>
      exact ⟨⟨fun _ => by decide, fun _ => by decide⟩, by decide⟩
  · have h0 := h
    simp only [objectPrototypeKeys, keys, objectPrototypeMethods, List.map_cons, List.map_nil,
      List.mem_cons, List.mem_singleton, List.not_mem_nil, or_false, not_or] at h
    obtain ⟨h1, h2, h3, h4, h5, h6, h7, h8, h9, h10, h11, h12⟩ := h
    have hnone : browserHost.objectProto k = none := by
      simp [browserHost, fromObjectPrototype, builtinMethod, objectPrototypeMethods, ownProp,
        h1, h2, h3, h4, h5, h6, h7, h8, h9, h10, h11, h12]
    rw [hnone]
    exact ⟨⟨fun hs => Bool.noConfusion hs, fun hm => absurd hm h0⟩,
      fun v hv => Option.noConfusion hv⟩

/-- Reads below a string leaf and below a built-in continue in `browserHost`:
the length and the first character of "Bosh sahifa", the name of the function
`Object`, and the falsy `length` of `toString`. -/
theorem browserHost_deep_reads :
    (getNestedTranslation browserHost inheritedKeyState "nav.home.length").toDOMString
        browserHost = some "11" ∧
      (getNestedTranslation browserHost inheritedKeyState "nav.home.0").toDOMString
        browserHost = some "B" ∧
      (getNestedTranslation browserHost inheritedKeyState "nav.constructor.name").toDOMString
        browserHost = some "Object" ∧
      (getNestedTranslation browserHost inheritedKeyState "nav.toString.length").truthy
        browserHost = false :=
  ⟨by decide, by decide, by decide, by decide⟩

/-! ### Document tree -/

theorem Dom.elements_map (f : Element → Element) (d : Dom) :
    (d.map f).elements = d.elements.map f := by
  induction d with
  | nil => rfl
  | node e kids rest ihk ihr => simp [Dom.map, Dom.elements, ihk, ihr]

theorem Dom.map_map (f g : Element → Element) (d : Dom) :
    (d.map f).map g = d.map fun e => g (f e) := by
  induction d with
  | nil => rfl
  | node e kids rest ihk ihr => simp [Dom.map, ihk, ihr]

theorem Dom.map_congr (f g : Element → Element) (d : Dom)
    (h : ∀ e ∈ d.elements, f e = g e) : d.map f = d.map g := by
  induction d with
  | nil => rfl
  | node e kids rest ihk ihr =>
    simp only [Dom.elements, List.mem_cons, List.mem_append] at h
    simp only [Dom.map]
    rw [h e (Or.inl rfl), ihk fun x hx => h x (Or.inr (Or.inl hx)),
      ihr fun x hx => h x (Or.inr (Or.inr hx))]

theorem Dom.map_id_of (f : Element → Element) (d : Dom)
    (h : ∀ e ∈ d.elements, f e = e) : d.map f = d := by
  induction d with
  | nil => rfl
  | node e kids rest ihk ihr =>
    simp only [Dom.elements, List.mem_cons, List.mem_append] at h
    simp only [Dom.map]
    rw [h e (Or.inl rfl), ihk fun x hx => h x (Or.inr (Or.inl hx)),
      ihr fun x hx => h x (Or.inr (Or.inr hx))]

theorem tagElem_of_lt (n0 : Nat) (e : Element) (h : e.id < n0) : tagElem n0 e = e := by
  simp [tagElem, h]

theorem tagElem_of_le (n0 : Nat) (e : Element) (h : n0 ≤ e.id) :
    tagElem n0 e = { e with id := n0 } := by
  have : ¬ e.id < n0 := by omega
  simp [tagElem, this]

theorem silenceElem_tagElem (n0 : Nat) (e : Element) :
    silenceElem n0 (tagElem n0 e) = silenceElem n0 e := by
  unfold tagElem
  split <;> rfl

theorem tagElem_id_ne (n0 b : Nat) (e : Element) (hb : b < n0) (h : ¬ e.id = b) :
    ¬ (tagElem n0 e).id = b := by
  unfold tagElem
  split
  · exact h
  · simp only
    omega

/-- Seen through `tagElem`, a clone is the original with its listeners removed. -/
theorem cloneDom_tag (n0 : Nat) (d : Dom) :
    ∀ n, n0 ≤ n →
      (cloneDom n d).1.map (tagElem n0) = d.map (silenceElem n0) ∧ n ≤ (cloneDom n d).2 := by
  induction d with
  | nil => intro n _; exact ⟨rfl, Nat.le_refl n⟩
  | node e kids rest ihk ihr =>
    intro n hn
    obtain ⟨hk1, hk2⟩ := ihk (n + 1) (by omega)
    obtain ⟨hr1, hr2⟩ := ihr (cloneDom (n + 1) kids).2 (by omega)
    refine ⟨?_, ?_⟩
    · simp only [cloneDom, Dom.map, hk1, hr1]
      rw [tagElem_of_le n0 _ (by simpa using hn)]
      rfl
    · simp only [cloneDom]
      omega

/-- Seen through `tagElem`, `replaceBtn` is `markBtn`. -/
theorem replaceBtn_tag (n0 b : Nat) (hb : b < n0) (d : Dom) :
    ∀ n, n0 ≤ n →
      (replaceBtn b n d).1.map (tagElem n0) = markBtn n0 b (d.map (tagElem n0)) ∧
        n ≤ (replaceBtn b n d).2.2 := by
  induction d with
  | nil => intro n _; exact ⟨rfl, Nat.le_refl n⟩
  | node e kids rest ihk ihr =>
    intro n hn
    by_cases he : e.id = b
    · obtain ⟨hc1, hc2⟩ := cloneDom_tag n0 kids (n + 1) (by omega)
      obtain ⟨hr1, hr2⟩ := ihr (cloneDom (n + 1) kids).2 (by omega)
      have hte : tagElem n0 e = e := tagElem_of_lt n0 e (by omega)
      refine ⟨?_, ?_⟩
      · simp only [replaceBtn, he, if_true, Dom.map, hc1, hr1, hte, markBtn]
        rw [tagElem_of_le n0 _ (by simpa using hn), Dom.map_map]
        simp only [silenceElem_tagElem]
      · simp only [replaceBtn, he, if_true]
        omega
    · obtain ⟨hk1, hk2⟩ := ihk n hn
      obtain ⟨hr1, hr2⟩ := ihr (replaceBtn b n kids).2.2 (by omega)
      have hne := tagElem_id_ne n0 b e hb he
      refine ⟨?_, ?_⟩
      · simp only [replaceBtn, he, if_false, Dom.map, hk1, hr1, markBtn, hne]
      · simp only [replaceBtn, he, if_false]
        omega

theorem Dom.ids_node (e : Element) (kids rest : Dom) :
    (Dom.node e kids rest).ids = e.id :: (kids.ids ++ rest.ids) := by
  simp [Dom.ids, Dom.elements]

theorem querySwitcherBtns_node (e : Element) (kids rest : Dom) :
    querySwitcherBtns (Dom.node e kids rest) =
      (if e.isSwitcherBtn then [e.id] else []) ++
        (querySwitcherBtns kids ++ querySwitcherBtns rest) := by
  by_cases h : e.isSwitcherBtn = true <;>
    simp [querySwitcherBtns, Dom.elements, List.filter_cons, h]

theorem mem_ids_of_mem_querySwitcherBtns (d : Dom) (b : Nat)
    (h : b ∈ querySwitcherBtns d) : b ∈ d.ids := by
  simp only [querySwitcherBtns, List.mem_map, List.mem_filter] at h
  obtain ⟨e, ⟨he, _⟩, hid⟩ := h
  exact List.mem_map.2 ⟨e, he, hid⟩

theorem markAll_switcher (n0 : Nat) (e : Element) (kids rest : Dom)
    (h : e.isSwitcherBtn = true) :
    markAll n0 (Dom.node e kids rest) =
      Dom.node { e with id := n0, clickListeners := 1 } (kids.map (silenceElem n0))
        (markAll n0 rest) := by
  simp [markAll, h]

theorem markAll_other (n0 : Nat) (e : Element) (kids rest : Dom)
    (h : ¬ e.isSwitcherBtn = true) :
    markAll n0 (Dom.node e kids rest) = Dom.node e (markAll n0 kids) (markAll n0 rest) := by
  simp [markAll, h]

theorem querySwitcherBtns_switcher (e : Element) (kids rest : Dom)
    (h : e.isSwitcherBtn = true) :
    querySwitcherBtns (Dom.node e kids rest) =
      e.id :: (querySwitcherBtns kids ++ querySwitcherBtns rest) := by
  rw [querySwitcherBtns_node]
  simp [h]

theorem querySwitcherBtns_other (e : Element) (kids rest : Dom)
    (h : ¬ e.isSwitcherBtn = true) :
    querySwitcherBtns (Dom.node e kids rest) =
      querySwitcherBtns kids ++ querySwitcherBtns rest := by
  rw [querySwitcherBtns_node]
  simp [h]

theorem markBtn_of_not_mem (n0 b : Nat) (d : Dom) (h : b ∉ d.ids) : markBtn n0 b d = d := by
  induction d with
  | nil => rfl
  | node e kids rest ihk ihr =>
    rw [Dom.ids_node] at h
    simp only [List.mem_cons, List.mem_append, not_or] at h
    have he : ¬ e.id = b := fun heq => h.1 heq.symm
    simp only [markBtn, he, if_false, ihk h.2.1, ihr h.2.2]

theorem foldl_markBtn_of_disjoint (n0 : Nat) (bs : List Nat) (d : Dom)
    (h : ∀ b ∈ bs, b ∉ d.ids) : bs.foldl (fun x b => markBtn n0 b x) d = d := by
  induction bs with
  | nil => rfl
  | cons b rest ih =>
    simp only [List.foldl_cons]
    rw [markBtn_of_not_mem n0 b d (h b (List.mem_cons_self _ _))]
    exact ih fun c hc => h c (List.mem_cons_of_mem _ hc)

theorem foldl_markBtn_node (n0 : Nat) (bs : List Nat) (e : Element) (kids rest : Dom)
    (h : e.id ∉ bs) :
    bs.foldl (fun x b => markBtn n0 b x) (Dom.node e kids rest) =
      Dom.node e (bs.foldl (fun x b => markBtn n0 b x) kids)
        (bs.foldl (fun x b => markBtn n0 b x) rest) := by
  induction bs generalizing kids rest with
  | nil => rfl
  | cons b tail ih =>
    simp only [List.mem_cons, not_or] at h
    simp only [List.foldl_cons]
    have he : ¬ e.id = b := h.1
    have hstep : markBtn n0 b (Dom.node e kids rest) =
        Dom.node e (markBtn n0 b kids) (markBtn n0 b rest) := by
      simp only [markBtn, he, if_false]
    rw [hstep]
    exact ih _ _ h.2

theorem ids_map_silenceElem (n0 : Nat) (d : Dom) :
    ∀ i ∈ (d.map (silenceElem n0)).ids, i = n0 := by
  intro i hi
  simp only [Dom.ids, Dom.elements_map, List.map_map, List.mem_map] at hi
  obtain ⟨e, _, he⟩ := hi
  rw [← he]
  rfl

theorem ids_markAll (n0 : Nat) (d : Dom) : ∀ i ∈ (markAll n0 d).ids, i ∈ d.ids ∨ i = n0 := by
  induction d with
  | nil => intro i hi; simp [markAll, Dom.ids, Dom.elements] at hi
  | node e kids rest ihk ihr =>
    intro i hi
    by_cases hsw : e.isSwitcherBtn = true
    · rw [markAll_switcher n0 e kids rest hsw] at hi
      rw [Dom.ids_node] at hi ⊢
      simp only [List.mem_cons, List.mem_append] at hi ⊢
      rcases hi with h | h | h
      · exact Or.inr h
      · exact Or.inr (ids_map_silenceElem n0 kids i h)
      · rcases ihr i h with h1 | h1
        · exact Or.inl (Or.inr (Or.inr h1))
        · exact Or.inr h1
    · rw [markAll_other n0 e kids rest hsw] at hi
      rw [Dom.ids_node] at hi ⊢
      simp only [List.mem_cons, List.mem_append] at hi ⊢
      rcases hi with h | h | h
      · exact Or.inl (Or.inl h)
      · rcases ihk i h with h1 | h1
        · exact Or.inl (Or.inr (Or.inl h1))
        · exact Or.inr h1
      · rcases ihr i h with h1 | h1
        · exact Or.inl (Or.inr (Or.inr h1))
        · exact Or.inr h1

/-- Marking the listed buttons one after the other, in document order, marks
exactly the outermost ones. -/
theorem foldl_markBtn_querySwitcherBtns (n0 : Nat) (d : Dom) (hnd : d.ids.Nodup)
    (hlt : ∀ i ∈ d.ids, i < n0) :
    (querySwitcherBtns d).foldl (fun x b => markBtn n0 b x) d = markAll n0 d := by
  induction d with
  | nil => rfl
  | node e kids rest ihk ihr =>
    rw [Dom.ids_node] at hnd hlt
    have he_notin : e.id ∉ kids.ids ++ rest.ids := (List.nodup_cons.1 hnd).1
    have hnd2 : (kids.ids ++ rest.ids).Nodup := (List.nodup_cons.1 hnd).2
    have hndk : kids.ids.Nodup := (List.nodup_append.1 hnd2).1
    have hndr : rest.ids.Nodup := (List.nodup_append.1 hnd2).2.1
    have hdisj : ∀ i, i ∈ kids.ids → i ∈ rest.ids → False := fun i hk hr =>
      (List.nodup_append.1 hnd2).2.2 hk hr
    have hltk : ∀ i ∈ kids.ids, i < n0 := fun i hi =>
      hlt i (List.mem_cons_of_mem _ (List.mem_append_left _ hi))
    have hltr : ∀ i ∈ rest.ids, i < n0 := fun i hi =>
      hlt i (List.mem_cons_of_mem _ (List.mem_append_right _ hi))
    have hK : ∀ b ∈ querySwitcherBtns kids, b ∈ kids.ids :=
      fun b hb => mem_ids_of_mem_querySwitcherBtns kids b hb
    have hR : ∀ b ∈ querySwitcherBtns rest, b ∈ rest.ids :=
      fun b hb => mem_ids_of_mem_querySwitcherBtns rest b hb
    -- the buttons listed inside the children do not touch the siblings
    have hrestK : (querySwitcherBtns kids).foldl (fun x b => markBtn n0 b x) rest = rest :=
      foldl_markBtn_of_disjoint n0 _ rest fun b hb hbr => hdisj b (hK b hb) hbr
    have hrest : (querySwitcherBtns kids ++ querySwitcherBtns rest).foldl
        (fun x b => markBtn n0 b x) rest = markAll n0 rest := by
      rw [List.foldl_append, hrestK]
      exact ihr hndr hltr
    have hnotin : e.id ∉ querySwitcherBtns kids ++ querySwitcherBtns rest := by
      intro hmem
      rcases List.mem_append.1 hmem with h | h
      · exact he_notin (List.mem_append_left _ (hK _ h))
      · exact he_notin (List.mem_append_right _ (hR _ h))
    by_cases hsw : e.isSwitcherBtn = true
    · rw [querySwitcherBtns_switcher e kids rest hsw, List.foldl_cons]
      have hfirst : markBtn n0 e.id (Dom.node e kids rest) =
          Dom.node { e with id := n0, clickListeners := 1 } (kids.map (silenceElem n0)) rest := by
        simp only [markBtn, if_true]
        rw [markBtn_of_not_mem n0 e.id rest fun h => he_notin (List.mem_append_right _ h)]
      rw [hfirst]
      have hn0 : n0 ∉ querySwitcherBtns kids ++ querySwitcherBtns rest := by
        intro hmem
        rcases List.mem_append.1 hmem with h | h
        · exact Nat.lt_irrefl _ (hltk n0 (hK _ h))
        · exact Nat.lt_irrefl _ (hltr n0 (hR _ h))
      rw [foldl_markBtn_node n0 _ _ _ _ hn0, hrest]
      have hsil : (querySwitcherBtns kids ++ querySwitcherBtns rest).foldl
          (fun x b => markBtn n0 b x) (kids.map (silenceElem n0)) =
          kids.map (silenceElem n0) := by
        refine foldl_markBtn_of_disjoint n0 _ _ fun b hb hmem => ?_
        have hbn : b = n0 := ids_map_silenceElem n0 kids b hmem
        exact hn0 (hbn ▸ hb)
      rw [hsil, markAll_switcher n0 e kids rest hsw]
    · rw [querySwitcherBtns_other e kids rest hsw]
      rw [foldl_markBtn_node n0 _ _ _ _ hnotin, hrest]
      have hkids : (querySwitcherBtns kids ++ querySwitcherBtns rest).foldl
          (fun x b => markBtn n0 b x) kids = markAll n0 kids := by
        rw [List.foldl_append, ihk hndk hltk]
        refine foldl_markBtn_of_disjoint n0 _ _ fun b hb hmem => ?_
        rcases ids_markAll n0 kids b hmem with h | h
        · exact hdisj b h (hR b hb)
        · exact Nat.lt_irrefl _ (h ▸ hltr b (hR b hb))
      rw [hkids, markAll_other n0 e kids rest hsw]

theorem cloneDom_le (d : Dom) : ∀ n, n ≤ (cloneDom n d).2 := by
  induction d with
  | nil => intro n; exact Nat.le_refl n
  | node e kids rest ihk ihr =>
    intro n
    have h1 := ihk (n + 1)
    have h2 := ihr (cloneDom (n + 1) kids).2
    simp only [cloneDom]
    omega

theorem replaceBtn_le (b : Nat) (d : Dom) : ∀ n, n ≤ (replaceBtn b n d).2.2 := by
  induction d with
  | nil => intro n; exact Nat.le_refl n
  | node e kids rest ihk ihr =>
    intro n
    by_cases he : e.id = b
    · have h1 := cloneDom_le kids (n + 1)
      have h2 := ihr (cloneDom (n + 1) kids).2
      simp only [replaceBtn, he, if_true]
      omega
    · have h1 := ihk n
      have h2 := ihr (replaceBtn b n kids).2.2
      simp only [replaceBtn, he, if_false]
      omega

/-- The nodes created by `cloneDom` are numbered from `n` without repetition. -/
theorem cloneDom_ids (d : Dom) :
    ∀ n, (cloneDom n d).1.ids.Nodup ∧
      ∀ i ∈ (cloneDom n d).1.ids, n ≤ i ∧ i < (cloneDom n d).2 := by
  induction d with
  | nil =>
    intro n
    exact ⟨List.nodup_nil, fun i hi => by simp [cloneDom, Dom.ids, Dom.elements] at hi⟩
  | node e kids rest ihk ihr =>
    intro n
    obtain ⟨hk1, hk2⟩ := ihk (n + 1)
    obtain ⟨hr1, hr2⟩ := ihr (cloneDom (n + 1) kids).2
    have hle1 := cloneDom_le kids (n + 1)
    have hle2 := cloneDom_le rest (cloneDom (n + 1) kids).2
    have hids : (cloneDom n (Dom.node e kids rest)).1.ids =
        n :: ((cloneDom (n + 1) kids).1.ids ++
          (cloneDom (cloneDom (n + 1) kids).2 rest).1.ids) := by
      simp only [cloneDom, Dom.ids_node]
    have hnext : (cloneDom n (Dom.node e kids rest)).2 =
        (cloneDom (cloneDom (n + 1) kids).2 rest).2 := by
      simp only [cloneDom]
    rw [hids, hnext]
    refine ⟨?_, ?_⟩
    · refine List.nodup_cons.2 ⟨?_, List.nodup_append.2 ⟨hk1, hr1, ?_⟩⟩
      · intro hmem
        rcases List.mem_append.1 hmem with h | h
        · have := hk2 n h
          omega
        · have := hr2 n h
          omega
      · intro i h1 h2
        have a := hk2 i h1
        have c := hr2 i h2
        omega
    · intro i hi
      rcases List.mem_cons.1 hi with h | h
      · omega
      · rcases List.mem_append.1 h with h | h
        · have := hk2 i h
          omega
        · have := hr2 i h
          omega

/-- After `replaceBtn` the identities are still pairwise distinct: the nodes
that stay keep theirs and the new ones are numbered from `n`. -/
theorem replaceBtn_ids (b : Nat) (d : Dom) :
    ∀ n lo, lo ≤ n → (∀ i ∈ d.ids, i < lo) → d.ids.Nodup →
      (replaceBtn b n d).1.ids.Nodup ∧
        ∀ i ∈ (replaceBtn b n d).1.ids, i ∈ d.ids ∨ (n ≤ i ∧ i < (replaceBtn b n d).2.2) := by
  induction d with
  | nil =>
    intro n lo _ _ _
    exact ⟨List.nodup_nil, fun i hi => by simp [replaceBtn, Dom.ids, Dom.elements] at hi⟩
  | node e kids rest ihk ihr =>
    intro n lo hlo hlt hnd
    rw [Dom.ids_node] at hlt hnd
    have he_lt : e.id < lo := hlt e.id (List.mem_cons_self _ _)
    have he_notin : e.id ∉ kids.ids ++ rest.ids := (List.nodup_cons.1 hnd).1
    have hnd2 : (kids.ids ++ rest.ids).Nodup := (List.nodup_cons.1 hnd).2
    have hndk : kids.ids.Nodup := (List.nodup_append.1 hnd2).1
    have hndr : rest.ids.Nodup := (List.nodup_append.1 hnd2).2.1
    have hdisj : ∀ i, i ∈ kids.ids → i ∈ rest.ids → False := fun i hk hr =>
      (List.nodup_append.1 hnd2).2.2 hk hr
    have hltk : ∀ i ∈ kids.ids, i < lo := fun i hi =>
      hlt i (List.mem_cons_of_mem _ (List.mem_append_left _ hi))
    have hltr : ∀ i ∈ rest.ids, i < lo := fun i hi =>
      hlt i (List.mem_cons_of_mem _ (List.mem_append_right _ hi))
    by_cases he : e.id = b
    · obtain ⟨hc1, hc2⟩ := cloneDom_ids kids (n + 1)
      have hcle := cloneDom_le kids (n + 1)
      obtain ⟨hr1, hr2⟩ := ihr (cloneDom (n + 1) kids).2 lo (by omega) hltr hndr
      have hrle := replaceBtn_le b rest (cloneDom (n + 1) kids).2
      have hids : (replaceBtn b n (Dom.node e kids rest)).1.ids =
          n :: ((cloneDom (n + 1) kids).1.ids ++
            (replaceBtn b (cloneDom (n + 1) kids).2 rest).1.ids) := by
        simp only [replaceBtn, he, if_true, Dom.ids_node]
      have hnext : (replaceBtn b n (Dom.node e kids rest)).2.2 =
          (replaceBtn b (cloneDom (n + 1) kids).2 rest).2.2 := by
        simp only [replaceBtn, he, if_true]
      rw [hids, hnext, Dom.ids_node]
      refine ⟨?_, ?_⟩
      · refine List.nodup_cons.2 ⟨?_, List.nodup_append.2 ⟨hc1, hr1, ?_⟩⟩
        · intro hmem
          rcases List.mem_append.1 hmem with h | h
          · have := hc2 n h
            omega
          · rcases hr2 n h with h1 | h1
            · have := hltr n h1
              omega
            · omega
        · intro i h1 h2
          have a := hc2 i h1
          rcases hr2 i h2 with h3 | h3
          · have := hltr i h3
            omega
          · omega
      · intro i hi
        rcases List.mem_cons.1 hi with h | h
        · exact Or.inr (by omega)
        · rcases List.mem_append.1 h with h | h
          · have := hc2 i h
            exact Or.inr (by omega)
          · rcases hr2 i h with h1 | h1
            · exact Or.inl (List.mem_cons_of_mem _ (List.mem_append_right _ h1))
            · exact Or.inr (by omega)
    · obtain ⟨hk1, hk2⟩ := ihk n lo hlo hltk hndk
      have hkle := replaceBtn_le b kids n
      obtain ⟨hr1, hr2⟩ := ihr (replaceBtn b n kids).2.2 lo (by omega) hltr hndr
      have hrle := replaceBtn_le b rest (replaceBtn b n kids).2.2
      have hids : (replaceBtn b n (Dom.node e kids rest)).1.ids =
          e.id :: ((replaceBtn b n kids).1.ids ++
            (replaceBtn b (replaceBtn b n kids).2.2 rest).1.ids) := by
        simp only [replaceBtn, he, if_false, Dom.ids_node]
      have hnext : (replaceBtn b n (Dom.node e kids rest)).2.2 =
          (replaceBtn b (replaceBtn b n kids).2.2 rest).2.2 := by
        simp only [replaceBtn, he, if_false]
      rw [hids, hnext, Dom.ids_node]
      refine ⟨?_, ?_⟩
      · refine List.nodup_cons.2 ⟨?_, List.nodup_append.2 ⟨hk1, hr1, ?_⟩⟩
        · intro hmem
          rcases List.mem_append.1 hmem with h | h
          · rcases hk2 e.id h with h1 | h1
            · exact he_notin (List.mem_append_left _ h1)
            · omega
          · rcases hr2 e.id h with h1 | h1
            · exact he_notin (List.mem_append_right _ h1)
            · omega
        · intro i h1 h2
          rcases hk2 i h1 with h3 | h3
          · rcases hr2 i h2 with h4 | h4
            · exact hdisj i h3 h4
            · have := hltk i h3
              omega
          · rcases hr2 i h2 with h4 | h4
            · have := hltr i h4
              omega
            · omega
      · intro i hi
        rcases List.mem_cons.1 hi with h | h
        · exact Or.inl (List.mem_cons.2 (Or.inl h))
        · rcases List.mem_append.1 h with h | h
          · rcases hk2 i h with h1 | h1
            · exact Or.inl (List.mem_cons_of_mem _ (List.mem_append_left _ h1))
            · exact Or.inr (by omega)
          · rcases hr2 i h with h1 | h1
            · exact Or.inl (List.mem_cons_of_mem _ (List.mem_append_right _ h1))
            · exact Or.inr (by omega)

/-! ### One initialization -/

theorem replaceWithClone_nextId_le (p : Page) (b : Nat) :
    p.nextId ≤ (replaceWithClone p b).nextId := by
  have h1 := replaceBtn_le b p.document p.nextId
  have h2 := replaceBtn_le b p.detached (replaceBtn b p.nextId p.document).2.2
  simp only [replaceWithClone]
  omega

theorem replaceWithClone_ids (p : Page) (b : Nat) (hnd : p.document.ids.Nodup)
    (hlt : ∀ i ∈ p.document.ids, i < p.nextId) :
    (replaceWithClone p b).document.ids.Nodup ∧
      ∀ i ∈ (replaceWithClone p b).document.ids, i < (replaceWithClone p b).nextId := by
  obtain ⟨h1, h2⟩ := replaceBtn_ids b p.document p.nextId p.nextId (Nat.le_refl _) hlt hnd
  have hle := replaceBtn_le b p.detached (replaceBtn b p.nextId p.document).2.2
  have hle0 := replaceBtn_le b p.document p.nextId
  refine ⟨h1, fun i hi => ?_⟩
  have hnext : (replaceWithClone p b).nextId =
      (replaceBtn b (replaceBtn b p.nextId p.document).2.2 p.detached).2.2 := rfl
  rw [hnext]
  rcases h2 i hi with h | h
  · have := hlt i h
    omega
  · omega

theorem foldl_replaceWithClone_ids (bs : List Nat) :
    ∀ p : Page, p.document.ids.Nodup → (∀ i ∈ p.document.ids, i < p.nextId) →
      (bs.foldl replaceWithClone p).document.ids.Nodup ∧
        ∀ i ∈ (bs.foldl replaceWithClone p).document.ids,
          i < (bs.foldl replaceWithClone p).nextId := by
  induction bs with
  | nil => intro p hnd hlt; exact ⟨hnd, hlt⟩
  | cons b rest ih =>
    intro p hnd hlt
    obtain ⟨h1, h2⟩ := replaceWithClone_ids p b hnd hlt
    exact ih (replaceWithClone p b) h1 h2

theorem foldl_replaceWithClone_tag (n0 : Nat) (bs : List Nat) :
    ∀ p : Page, (∀ b ∈ bs, b < n0) → n0 ≤ p.nextId →
      (bs.foldl replaceWithClone p).document.map (tagElem n0) =
        bs.foldl (fun x b => markBtn n0 b x) (p.document.map (tagElem n0)) := by
  induction bs with
  | nil => intro p _ _; rfl
  | cons b rest ih =>
    intro p hb hn
    simp only [List.foldl_cons]
    have hstep := (replaceBtn_tag n0 b (hb b (List.mem_cons_self _ _)) p.document p.nextId hn).1
    have hdoc : (replaceWithClone p b).document = (replaceBtn b p.nextId p.document).1 := rfl
    rw [ih (replaceWithClone p b) (fun c hc => hb c (List.mem_cons_of_mem _ hc))
      (Nat.le_trans hn (replaceWithClone_nextId_le p b)), hdoc, hstep]

theorem initLanguageSwitcher_ids (p : Page) (hnd : p.document.ids.Nodup)
    (hlt : ∀ i ∈ p.document.ids, i < p.nextId) :
    (initLanguageSwitcher p).document.ids.Nodup ∧
      ∀ i ∈ (initLanguageSwitcher p).document.ids, i < (initLanguageSwitcher p).nextId :=
  foldl_replaceWithClone_ids _ p hnd hlt

/-- Seen through `tagElem`, one initialization marks the outermost buttons. -/
theorem initLanguageSwitcher_tag (p : Page) (hnd : p.document.ids.Nodup)
    (hlt : ∀ i ∈ p.document.ids, i < p.nextId) :
    (initLanguageSwitcher p).document.map (tagElem p.nextId) = markAll p.nextId p.document := by
  have hsame : p.document.map (tagElem p.nextId) = p.document :=
    Dom.map_id_of _ _ fun e he =>
      tagElem_of_lt _ e (hlt e.id (List.mem_map_of_mem Element.id he))
  have hfold := foldl_replaceWithClone_tag p.nextId (querySwitcherBtns p.document) p
    (fun b hb => hlt b (mem_ids_of_mem_querySwitcherBtns _ b hb)) (Nat.le_refl _)
  rw [hsame] at hfold
  unfold initLanguageSwitcher
  rw [hfold]
  exact foldl_markBtn_querySwitcherBtns p.nextId p.document hnd hlt

theorem anonymous_map_tagElem (n0 : Nat) (d : Dom) :
    anonymous (d.map (tagElem n0)) = anonymous d := by
  unfold anonymous
  rw [Dom.map_map]
  refine Dom.map_congr _ _ d fun e _ => ?_
  unfold tagElem
  split <;> rfl

theorem anonymous_markAll (n0 : Nat) (d : Dom) :
    anonymous (markAll n0 d) = anonymous (afterInit d) := by
  induction d with
  | nil => rfl
  | node e kids rest ihk ihr =>
    unfold anonymous at ihk ihr ⊢
    by_cases hsw : e.isSwitcherBtn = true
    · rw [markAll_switcher n0 e kids rest hsw]
      simp only [afterInit, hsw, if_true, Dom.map, ihr, Dom.map_map]
      rfl
    · rw [markAll_other n0 e kids rest hsw]
      simp only [afterInit, hsw, Dom.map, ihk, ihr]

/-- One initialization of a well-formed page gives the listeners that the
specification expects and changes nothing else but node identities. -/
theorem initLanguageSwitcher_anonymous (p : Page) (hnd : p.document.ids.Nodup)
    (hlt : ∀ i ∈ p.document.ids, i < p.nextId) :
    anonymous (initLanguageSwitcher p).document = anonymous (afterInit p.document) := by
  rw [← anonymous_map_tagElem p.nextId, initLanguageSwitcher_tag p hnd hlt, anonymous_markAll]

/-! ### Repeated initialization -/

theorem afterInit_anonymous (d : Dom) : afterInit (anonymous d) = anonymous (afterInit d) := by
  induction d with
  | nil => rfl
  | node e kids rest ihk ihr =>
    unfold anonymous at ihk ihr ⊢
    by_cases hsw : e.isSwitcherBtn = true
    · simp only [afterInit, hsw, if_true, Dom.map, ihr, Dom.map_map]
    · simp only [afterInit, hsw, Dom.map, ihk, ihr]
      rfl

theorem afterInit_afterInit (d : Dom) : afterInit (afterInit d) = afterInit d := by
  induction d with
  | nil => rfl
  | node e kids rest ihk ihr =>
    by_cases hsw : e.isSwitcherBtn = true
    · simp only [afterInit, hsw, if_true, ihr, Dom.map_map]
    · simp only [afterInit, hsw, ihk, ihr]
      rfl

theorem iterate_initLanguageSwitcher_ids (p : Page) (hnd : p.document.ids.Nodup)
    (hlt : ∀ i ∈ p.document.ids, i < p.nextId) (n : Nat) :
    (initLanguageSwitcher^[n] p).document.ids.Nodup ∧
      ∀ i ∈ (initLanguageSwitcher^[n] p).document.ids, i < (initLanguageSwitcher^[n] p).nextId := by
  induction n with
  | zero => exact ⟨hnd, hlt⟩
  | succ m ih =>
    rw [Function.iterate_succ_apply']
    exact initLanguageSwitcher_ids _ ih.1 ih.2

theorem iterate_initLanguageSwitcher_anonymous (p : Page) (hnd : p.document.ids.Nodup)
    (hlt : ∀ i ∈ p.document.ids, i < p.nextId) (m : Nat) :
    anonymous (initLanguageSwitcher^[m + 1] p).document = anonymous (afterInit p.document) := by
  induction m with
  | zero => exact initLanguageSwitcher_anonymous p hnd hlt
  | succ k ih =>
    rw [Function.iterate_succ_apply']
    obtain ⟨h1, h2⟩ := iterate_initLanguageSwitcher_ids p hnd hlt (k + 1)
    rw [initLanguageSwitcher_anonymous _ h1 h2, ← afterInit_anonymous, ih, afterInit_anonymous,
      afterInit_afterInit]

/-! ### Clicks -/

theorem silent_node (e : Element) (kids rest : Dom) :
    Silent (Dom.node e kids rest) ↔ e.clickListeners = 0 ∧ Silent kids ∧ Silent rest := by
  simp only [Silent, Dom.elements, List.mem_cons, List.mem_append]
  constructor
  · intro h
    exact ⟨h e (Or.inl rfl), fun x hx => h x (Or.inr (Or.inl hx)),
      fun x hx => h x (Or.inr (Or.inr hx))⟩
  · rintro ⟨h1, h2, h3⟩ x (hx | hx | hx)
    · rw [hx]; exact h1
    · exact h2 x hx
    · exact h3 x hx

theorem silent_map (f : Element → Element) (hf : ∀ e, (f e).clickListeners = e.clickListeners)
    (d : Dom) : Silent (d.map f) ↔ Silent d := by
  simp only [Silent, Dom.elements_map, List.mem_map]
  constructor
  · intro h e he
    rw [← hf e]
    exact h (f e) ⟨e, he, rfl⟩
  · rintro h x ⟨e, he, rfl⟩
    rw [hf e]
    exact h e he

theorem silent_map_zero (d : Dom) :
    Silent (d.map fun x => { x with clickListeners := 0 }) := by
  simp only [Silent, Dom.elements_map, List.mem_map]
  rintro x ⟨e, _, rfl⟩
  rfl

theorem settled_anonymous (d : Dom) : Settled (anonymous d) ↔ Settled d := by
  induction d with
  | nil => exact Iff.rfl
  | node e kids rest ihk ihr =>
    unfold anonymous at ihk ihr ⊢
    have hs : Silent (kids.map fun x => { x with id := 0 }) ↔ Silent kids :=
      silent_map (fun x => { x with id := 0 }) (fun _ => rfl) kids
    by_cases hsw : e.isSwitcherBtn = true
    · simp only [Dom.map, Settled, hsw, if_true, hs, ihr]
    · simp only [Dom.map, Settled, hsw, Bool.false_eq_true, if_false, ihk, ihr]

theorem settled_afterInit (d : Dom) : Settled (afterInit d) := by
  induction d with
  | nil => exact trivial
  | node e kids rest ihk ihr =>
    by_cases hsw : e.isSwitcherBtn = true
    · simp only [afterInit, hsw, if_true, Settled]
      exact ⟨⟨trivial, silent_map_zero kids⟩, ihr⟩
    · simp only [afterInit, hsw, Settled]
      exact ⟨ihk, ihr⟩

theorem listenersRun_of_not_mem (t : Nat) (d : Dom) (h : t ∉ d.ids) :
    listenersRun t d = none := by
  induction d with
  | nil => rfl
  | node e kids rest ihk ihr =>
    rw [Dom.ids_node] at h
    simp only [List.mem_cons, List.mem_append, not_or] at h
    have he : ¬ e.id = t := fun heq => h.1 heq.symm
    simp only [listenersRun, he, if_false, ihk h.2.1, ihr h.2.2]

theorem listenersRun_silent (t : Nat) (d : Dom) (hs : Silent d) (h : t ∈ d.ids) :
    listenersRun t d = some 0 := by
  induction d with
  | nil => simp [Dom.ids, Dom.elements] at h
  | node e kids rest ihk ihr =>
    obtain ⟨h0, hsk, hsr⟩ := (silent_node e kids rest).1 hs
    rw [Dom.ids_node] at h
    by_cases he : e.id = t
    · simp only [listenersRun, he, if_true, h0]
    · by_cases hk : t ∈ kids.ids
      · simp only [listenersRun, he, if_false, ihk hsk hk, if_true, h0]
      · have hr : t ∈ rest.ids := by
          rcases List.mem_cons.1 h with h1 | h1
          · exact absurd h1.symm he
          · rcases List.mem_append.1 h1 with h2 | h2
            · exact absurd h2 hk
            · exact h2
        simp only [listenersRun, he, if_false, listenersRun_of_not_mem t kids hk, ihr hsr hr]

/-- In a settled document with distinct identities a click on any
`.lang-switcher-btn` node runs exactly one listener. -/
theorem listenersRun_settled (d : Dom) (hset : Settled d) (hnd : d.ids.Nodup) :
    ∀ x ∈ d.elements, x.isSwitcherBtn = true → listenersRun x.id d = some 1 := by
  induction d with
  | nil => intro x hx; simp [Dom.elements] at hx
  | node e kids rest ihk ihr =>
    intro x hx hsw
    rw [Dom.ids_node] at hnd
    have he_notin : e.id ∉ kids.ids ++ rest.ids := (List.nodup_cons.1 hnd).1
    have hnd2 : (kids.ids ++ rest.ids).Nodup := (List.nodup_cons.1 hnd).2
    have hndk : kids.ids.Nodup := (List.nodup_append.1 hnd2).1
    have hndr : rest.ids.Nodup := (List.nodup_append.1 hnd2).2.1
    have hdisj : ∀ i, i ∈ kids.ids → i ∈ rest.ids → False := fun i hk hr =>
      (List.nodup_append.1 hnd2).2.2 hk hr
    simp only [Dom.elements, List.mem_cons, List.mem_append] at hx
    simp only [Settled] at hset
    obtain ⟨hroot, hrest⟩ := hset
    rcases hx with hx | hx | hx
    · subst hx
      rw [if_pos hsw] at hroot
      simp only [listenersRun, if_true, hroot.1]
    · have hxk : x.id ∈ kids.ids := List.mem_map_of_mem Element.id hx
      have he : ¬ e.id = x.id := fun heq => he_notin (heq ▸ List.mem_append_left _ hxk)
      by_cases hesw : e.isSwitcherBtn = true
      · rw [if_pos hesw] at hroot
        simp only [listenersRun, he, if_false, listenersRun_silent x.id kids hroot.2 hxk,
          if_true, hroot.1]
      · rw [if_neg hesw] at hroot
        simp only [listenersRun, he, if_false, ihk hroot hndk x hx hsw]
        rfl
    · have hxr : x.id ∈ rest.ids := List.mem_map_of_mem Element.id hx
      have he : ¬ e.id = x.id := fun heq => he_notin (heq ▸ List.mem_append_right _ hxr)
      have hxk : x.id ∉ kids.ids := fun h => hdisj x.id h hxr
      simp only [listenersRun, he, if_false, listenersRun_of_not_mem x.id kids hxk,
        ihr hrest hndr x hx hsw]

/-! ## Claims -/

/-- C1: for every dictionary held by the controller and every locale code that is
a top-level key of it, `setLanguage(c)` followed by `getCurrentLanguage()` returns
`c`, whatever the active locale was before. -/
theorem setLanguage_then_getCurrentLanguage {N : Type} (host : Host N) (st : State N)
    (c : String) (h : c ∈ keys st.translations) :
    getCurrentLanguage (setLanguage host c st) = c :=
  setLanguage_currentLang_found host c st (languageFound_of_mem_keys host st c h)

theorem setLanguage_then_getCurrentLanguage_witness :
    "ru" ∈ keys sampleState.translations ∧ getCurrentLanguage sampleState = "uz" ∧
      getCurrentLanguage (setLanguage browserHost "ru" sampleState) = "ru" :=
  ⟨by decide, by decide,
    setLanguage_then_getCurrentLanguage browserHost sampleState "ru" (by decide)⟩

/-- C2, at the failing input: with the dictionary `{"uz": {}}` the code
`"constructor"` is not a top-level key, yet `setLanguage("constructor")` is not
refused: the active locale becomes `"constructor"` and `"selectedLanguage"` is
written. -/
theorem setLanguage_inherited_name_accepted :
    "constructor" ∉ keys [("uz", ([] : List (String × Tr)))] ∧
      getCurrentLanguage
          (setLanguage browserHost "constructor"
            { initialState [] [] 0 with translations := [("uz", [])] }) = "constructor" ∧
      (setLanguage browserHost "constructor"
          { initialState [] [] 0 with translations := [("uz", [])] }).localStorage =
        [("selectedLanguage", "constructor")] := by
  refine ⟨by decide, by decide, by decide⟩

/-- C7: when the top-level keys of the dictionary are exactly "uz" and "ru",
starting at "uz" one `toggleLanguage()` gives "ru" and a second one "uz"; from
either locale a toggle gives the other one and two toggles restore the start. -/
theorem toggleLanguage_alternates {N : Type} (host : Host N) (st : State N)
    (hkeys : ∀ c, c ∈ keys st.translations ↔ c = "uz" ∨ c = "ru") :
    (getCurrentLanguage st = "uz" →
        getCurrentLanguage (toggleLanguage host st) = "ru" ∧
          getCurrentLanguage (toggleLanguage host (toggleLanguage host st)) = "uz") ∧
      (getCurrentLanguage st = "ru" →
        getCurrentLanguage (toggleLanguage host st) = "uz" ∧
          getCurrentLanguage (toggleLanguage host (toggleLanguage host st)) = "ru") := by
  have huz : ∀ s : State N, s.translations = st.translations →
      (setLanguage host "uz" s).currentLang = "uz" := fun s hs =>
    setLanguage_currentLang_found host "uz" s
      (languageFound_of_mem_keys host s "uz" (by rw [hs]; exact (hkeys "uz").2 (Or.inl rfl)))
  have hru : ∀ s : State N, s.translations = st.translations →
      (setLanguage host "ru" s).currentLang = "ru" := fun s hs =>
    setLanguage_currentLang_found host "ru" s
      (languageFound_of_mem_keys host s "ru" (by rw [hs]; exact (hkeys "ru").2 (Or.inr rfl)))
  have toRu : ∀ s : State N, s.translations = st.translations → s.currentLang = "uz" →
      (toggleLanguage host s).currentLang = "ru" := by
    intro s hs hcur
    have : newLang s.currentLang = "ru" := by rw [hcur]; decide
    rw [toggleLanguage_eq, this]
    exact hru s hs
  have toUz : ∀ s : State N, s.translations = st.translations → s.currentLang = "ru" →
      (toggleLanguage host s).currentLang = "uz" := by
    intro s hs hcur
    have : newLang s.currentLang = "uz" := by rw [hcur]; decide
    rw [toggleLanguage_eq, this]
    exact huz s hs
  have hkeep : (toggleLanguage host st).translations = st.translations :=
    setLanguage_translations host _ st
  refine ⟨fun h => ?_, fun h => ?_⟩
  · exact ⟨toRu st rfl h, toUz _ hkeep (toRu st rfl h)⟩
  · exact ⟨toUz st rfl h, toRu _ hkeep (toUz st rfl h)⟩

theorem toggleLanguage_alternates_witness :
    getCurrentLanguage sampleState = "uz" ∧
      getCurrentLanguage (toggleLanguage browserHost sampleState) = "ru" ∧
      getCurrentLanguage (toggleLanguage browserHost (toggleLanguage browserHost sampleState)) =
        "uz" :=
  ⟨by decide,
    (toggleLanguage_alternates browserHost sampleState
      (by intro c; simp [keys, sampleState, sampleDictionary, initialState])).1 (by decide)⟩

/-- C8: after every successful `setLanguage`, and after every switcher-label
refresh, the text of every `.current-lang` element is the label computed from the
active locale alone; that label is the upper-cased code that the next
`toggleLanguage()` passes to `setLanguage`, and that code is not the active
locale. -/
theorem switcher_label_after_setLanguage {N : Type} (host : Host N) (lang : String)
    (st : State N) (h : languageFound host st lang = true) :
    (∀ btn ∈ (setLanguage host lang st).document, btn.isCurrentLang = true →
        btn.textContent = nextLang (getCurrentLanguage (setLanguage host lang st))) ∧
      (∀ s : State N, ∀ btn ∈ (updateLanguageSwitcher s).document, btn.isCurrentLang = true →
        btn.textContent = nextLang (getCurrentLanguage s)) ∧
      ∀ s : State N,
        nextLang (getCurrentLanguage s) = toUpperCase (newLang (getCurrentLanguage s)) ∧
          newLang (getCurrentLanguage s) ≠ getCurrentLanguage s ∧
          toggleLanguage host s = setLanguage host (newLang (getCurrentLanguage s)) s := by
  refine ⟨fun btn hmem hcls => ?_, fun s => updateLanguageSwitcher_label s,
    fun s => ⟨nextLang_eq_toUpperCase _, newLang_ne _, rfl⟩⟩
  rw [setLanguage_found host lang st h] at hmem ⊢
  have hlabel := updateLanguageSwitcher_label
    (updatePageTranslations host
      { st with
        currentLang := lang
        localStorage := setItem "selectedLanguage" lang st.localStorage
        htmlLang := some lang }) btn hmem hcls
  exact hlabel

theorem switcher_label_after_setLanguage_witness :
    languageFound browserHost sampleState "ru" = true ∧
      sampleLabel ∈ (setLanguage browserHost "ru" sampleState).document ∧
      sampleLabel.textContent = "UZ" ∧
      nextLang (getCurrentLanguage (setLanguage browserHost "ru" sampleState)) = "UZ" :=
  ⟨by decide, by decide, by decide,
    ((switcher_label_after_setLanguage browserHost "ru" sampleState (by decide)).1
      sampleLabel (by decide) (by decide)).symm.trans (by decide)⟩

/-- C9: when the request for the primary location and for each of the four
fallback locations fails, `loadTranslations` returns normally and leaves the
state as it was; started from the initial state, `getTranslations()` is still the
empty dictionary, `getCurrentLanguage()` is still "uz" and nothing has been
written to storage. -/
theorem loadTranslations_all_fail {N : Type} (host : Host N)
    (fetchJson : String → Except String Dictionary)
    (hfail : ∀ p ∈ "translations.json" :: paths, ∃ err, fetchJson p = .error err) :
    (∀ st : State N, loadTranslations host fetchJson st = .ok st) ∧
      ∀ (storage : List (String × String)) (doc : List Element) (nextId : Nat),
        ∃ st : State N,
          loadTranslations host fetchJson (initialState storage doc nextId) = .ok st ∧
            getTranslations st = [] ∧ getCurrentLanguage st = "uz" ∧
            st.localStorage = storage := by
  have hall : ∀ st : State N, loadTranslations host fetchJson st = .ok st := by
    intro st
    obtain ⟨err, herr⟩ := hfail "translations.json" (List.mem_cons_self _ _)
    simp only [loadTranslations, attempt, herr]
    exact tryPaths_all_fail host fetchJson st paths
      fun p hp => hfail p (List.mem_cons_of_mem _ hp)
  exact ⟨hall, fun storage doc nextId => ⟨_, hall _, rfl, rfl, rfl⟩⟩

theorem loadTranslations_all_fail_witness :
    (∀ p ∈ "translations.json" :: paths, ∃ err, offline p = .error err) ∧
      loadTranslations browserHost offline (initialState [] sampleDocument 3) =
        .ok (initialState [] sampleDocument 3) :=
  ⟨fun _ _ => ⟨_, rfl⟩,
    (loadTranslations_all_fail browserHost offline fun _ _ => ⟨_, rfl⟩).1 _⟩

/-- C10, amended: for every document and every n ≥ 1, after
`initLanguageSwitcher` has run n times the document has the same nodes as before
with the listeners of `afterInit`: every `.lang-switcher-btn` element that is not
inside another one carries exactly one click listener and the nodes inside it
carry none; a click on any `.lang-switcher-btn` element runs `toggleLanguage`
exactly once. -/
theorem initLanguageSwitcher_listeners {N : Type} (host : Host N) (n : Nat) (hn : 1 ≤ n)
    (p : Page) (hnd : p.document.ids.Nodup) (hlt : ∀ i ∈ p.document.ids, i < p.nextId) :
    anonymous (initLanguageSwitcher^[n] p).document = anonymous (afterInit p.document) ∧
      Settled (initLanguageSwitcher^[n] p).document ∧
      ∀ btn ∈ (initLanguageSwitcher^[n] p).document.elements, btn.isSwitcherBtn = true →
        listenersRun btn.id (initLanguageSwitcher^[n] p).document = some 1 ∧
          ∀ st : State N,
            click host (initLanguageSwitcher^[n] p).document btn.id st =
              toggleLanguage host st := by
  obtain ⟨m, rfl⟩ : ∃ m, n = m + 1 := ⟨n - 1, by omega⟩
  have hanon := iterate_initLanguageSwitcher_anonymous p hnd hlt m
  have hset : Settled (initLanguageSwitcher^[m + 1] p).document := by
    rw [← settled_anonymous, hanon, settled_anonymous]
    exact settled_afterInit p.document
  have hids := (iterate_initLanguageSwitcher_ids p hnd hlt (m + 1)).1
  refine ⟨hanon, hset, fun btn hbtn hsw => ?_⟩
  have hrun := listenersRun_settled _ hset hids btn hbtn hsw
  refine ⟨hrun, fun st => ?_⟩
  unfold click
  rw [hrun]
  rfl

theorem initLanguageSwitcher_listeners_witness :
    1 ≤ 2 ∧ nestedPage.document.ids.Nodup ∧
      anonymous (initLanguageSwitcher^[2] nestedPage).document =
        anonymous (afterInit nestedPage.document) ∧
      nestedInnerButton ∈ (initLanguageSwitcher^[2] nestedPage).document.elements ∧
      listenersRun nestedInnerButton.id (initLanguageSwitcher^[2] nestedPage).document =
        some 1 ∧
      click browserHost (initLanguageSwitcher^[2] nestedPage).document nestedInnerButton.id
          sampleState = toggleLanguage browserHost sampleState :=
  have h := initLanguageSwitcher_listeners browserHost 2 (by decide) nestedPage (by decide)
    (by decide)
  ⟨by decide, by decide, h.1, by decide,
    (h.2.2 nestedInnerButton (by decide) (by decide)).1,
    (h.2.2 nestedInnerButton (by decide) (by decide)).2 sampleState⟩

/-- C10 as stated fails: when a `.lang-switcher-btn` element contains another
one, the inner element that is in the document after initialization (one run or
two) is a clone made with its parent and carries no click listener. -/
theorem nested_button_without_listener :
    (initLanguageSwitcher nestedPage).document.elements.map
        (fun e => (e.isSwitcherBtn, e.clickListeners)) =
        [(true, 1), (true, 0), (false, 0)] ∧
      nestedInnerButton ∈ (initLanguageSwitcher^[2] nestedPage).document.elements ∧
      nestedInnerButton.isSwitcherBtn = true ∧ nestedInnerButton.clickListeners = 0 :=
  ⟨by decide, by decide, by decide, by decide⟩

/-- C4, amended: when the key of an element, walked segment by segment through
`Dictionary[ActiveLocale]`, resolves to a non-empty string, then once the fade
delay has elapsed after `updatePageTranslations` the element's text is that
string and its opacity is "1"; the same holds after a successful
`setLanguage(lang)` for keys that resolve under `lang`. -/
theorem updatePageTranslations_writes {N : Type} (host : Host N) (st : State N) (e : Element)
    (key s : String) (hids : (st.document.map Element.id).Nodup) (he : e ∈ st.document)
    (hkey : e.dataI18n = some key) (hs : s ≠ "") :
    (resolve st.translations st.currentLang key = some (.str s) →
        (∃ e1 ∈ (runTimers host (updatePageTranslations host st)).document, e1.id = e.id) ∧
          ∀ e1 ∈ (runTimers host (updatePageTranslations host st)).document, e1.id = e.id →
            e1.textContent = s ∧ e1.opacity = "1") ∧
      ∀ lang, languageFound host st lang = true →
        resolve st.translations lang key = some (.str s) →
          (∃ e1 ∈ (runTimers host (setLanguage host lang st)).document, e1.id = e.id) ∧
            ∀ e1 ∈ (runTimers host (setLanguage host lang st)).document, e1.id = e.id →
              e1.textContent = s ∧ e1.opacity = "1" := by
  constructor
  · intro hres
    exact written_after_projection host st e key s hids he hkey hres hs _ rfl
      (updatePageTranslations_ids host st)
  · intro lang hfound hres
    rw [setLanguage_found host lang st hfound]
    refine written_after_projection host
      { st with
        currentLang := lang
        localStorage := setItem "selectedLanguage" lang st.localStorage
        htmlLang := some lang } e key s hids he hkey hres hs _ rfl ?_
    rw [updateLanguageSwitcher_ids, updatePageTranslations_ids]

theorem updatePageTranslations_writes_witness :
    resolve sampleState.translations "uz" "nav.home" = some (.str "Bosh sahifa") ∧
      sampleHeading ∈ (runTimers browserHost (setLanguage browserHost "uz" sampleState)).document ∧
      sampleHeading.textContent = "Bosh sahifa" ∧ sampleHeading.opacity = "1" :=
  ⟨rfl, by decide,
    ((updatePageTranslations_writes browserHost sampleState
        { id := 0, dataI18n := some "nav.home", isCurrentLang := false, isSwitcherBtn := false,
          textContent := "Home", opacity := "", clickListeners := 0 }
        "nav.home" "Bosh sahifa" (by decide) (by decide) rfl (by decide)).2
      "uz" (by decide) rfl).2 sampleHeading (by decide) rfl⟩

/-- C4 as stated fails: the key "nav.home" resolves to the value "" in
`{uz:{nav:{home:""}}}`, but `updatePageTranslations` schedules nothing and the
element keeps the text "Home" after the delay. -/
theorem updatePageTranslations_skips_empty_string :
    resolve emptyValueState.translations emptyValueState.currentLang "nav.home" =
        some (.str "") ∧
      (updatePageTranslations browserHost emptyValueState).timers.length = 0 ∧
      (runTimers browserHost (updatePageTranslations browserHost emptyValueState)).document.map
          Element.textContent = ["Home"] :=
  ⟨rfl, by decide, by decide⟩

/-- C5, at the failing input: in `{uz:{nav:{home:"Bosh sahifa"}}}` the key
"nav.constructor" has a segment missing from the nested mapping (the walk finds
no value), yet `updatePageTranslations` sets the element's opacity to "0" and,
after the delay, replaces its text "Home". -/
theorem updatePageTranslations_inherited_segment :
    (resolve inheritedKeyState.translations inheritedKeyState.currentLang
        "nav.constructor").isNone = true ∧
      (updatePageTranslations browserHost inheritedKeyState).document.map Element.opacity =
        ["0"] ∧
      (runTimers browserHost (updatePageTranslations browserHost inheritedKeyState)).document.map
          Element.textContent = ["function Object() \x7b [native code] \x7d"] :=
  ⟨by decide, by decide, by decide⟩

/-- C3, amended: once the loader has stored the retrieved dictionary, after any
later sequence of `toggleLanguage` and `setLanguage` calls the dictionary is
still the retrieved one and the active locale is the default "uz" or one of its
top-level keys, provided none of the codes requested from `setLanguage` is the
name of a property that objects inherit: the persisted "selectedLanguage" value
(or "uz" in its place), the arguments of the later `setLanguage` calls, and "uz"
and "ru" when `toggleLanguage` is called. -/
theorem active_locale_known {N : Type} (host : Host N) (storage : List (String × String))
    (doc : List Element) (nextId : Nat) (fetchJson : String → Except String Dictionary)
    (d : Dictionary) (hret : firstRetrieved fetchJson ("translations.json" :: paths) = some d)
    (ops : List Op)
    (hsafe : ∀ c ∈ savedLang storage :: ops.flatMap Op.codes, host.objectProto c = none) :
    ∃ st0 : State N,
      loadTranslations host fetchJson (initialState storage doc nextId) = .ok st0 ∧
        getTranslations (run host ops st0) = d ∧
        (getCurrentLanguage (run host ops st0) = "uz" ∨
          getCurrentLanguage (run host ops st0) ∈ keys d) := by
  refine ⟨_, loadTranslations_of_firstRetrieved host fetchJson _ d hret, ?_⟩
  have hsaved : host.objectProto (savedLang storage) = none :=
    hsafe _ (List.mem_cons_self _ _)
  have hinv0 := setLanguage_keeps_locale_known host (savedLang storage)
    { (initialState storage doc nextId : State N) with translations := d } hsaved (Or.inl rfl)
  have htr0 := setLanguage_translations host (savedLang storage)
    { (initialState storage doc nextId : State N) with translations := d }
  have hrun := run_keeps_locale_known host ops _
    (fun c hc => hsafe c (List.mem_cons_of_mem _ hc)) hinv0
  rw [htr0] at hrun
  exact hrun

theorem active_locale_known_witness :
    firstRetrieved lastPathOnly ("translations.json" :: paths) = some sampleDictionary ∧
      ∃ st0 : State Builtin,
        loadTranslations browserHost lastPathOnly
            (initialState [("selectedLanguage", "ru")] sampleDocument 3) = .ok st0 ∧
          getTranslations
              (run browserHost [.toggleLanguage, .setLanguage "fr", .toggleLanguage] st0) =
            sampleDictionary ∧
          (getCurrentLanguage
                (run browserHost [.toggleLanguage, .setLanguage "fr", .toggleLanguage] st0) =
              "uz" ∨
            getCurrentLanguage
                (run browserHost [.toggleLanguage, .setLanguage "fr", .toggleLanguage] st0) ∈
              keys sampleDictionary) :=
  ⟨rfl,
    active_locale_known browserHost [("selectedLanguage", "ru")] sampleDocument 3 lastPathOnly
      sampleDictionary rfl [.toggleLanguage, .setLanguage "fr", .toggleLanguage] (by decide)⟩

/-- C3 as stated fails: when the retrieved dictionary has the single key "ru" and
nothing is persisted, the loader's `setLanguage("uz")` is refused and the active
locale stays "uz", which is not a key of the stored dictionary. -/
theorem active_locale_not_a_key :
    ∃ st0 : State Builtin,
      loadTranslations browserHost (fun _ => .ok russianOnly) (initialState [] [] 0) = .ok st0 ∧
        keys (getTranslations st0) = ["ru"] ∧ getCurrentLanguage st0 = "uz" ∧
        getCurrentLanguage st0 ∉ keys (getTranslations st0) :=
  ⟨_, rfl, by decide, by decide, by decide⟩

/-- C6, amended: for every non-empty code c, if `setLanguage(c)` succeeds and a
new page load (initial state, same storage) retrieves a dictionary that has c as
a top-level key, then after the loader `getCurrentLanguage()` returns c; when
storage holds no "selectedLanguage" entry the loader calls `setLanguage("uz")`
on the retrieved dictionary. -/
theorem persisted_locale_restored {N : Type} (host : Host N) (st : State N) (c : String)
    (hc : c ≠ "") (hfound : languageFound host st c = true)
    (fetchJson : String → Except String Dictionary) (d : Dictionary)
    (hret : firstRetrieved fetchJson ("translations.json" :: paths) = some d) :
    (c ∈ keys d → ∀ (doc : List Element) (nextId : Nat),
        ∃ st2 : State N,
          loadTranslations host fetchJson
              (initialState (setLanguage host c st).localStorage doc nextId) = .ok st2 ∧
            getCurrentLanguage st2 = c) ∧
      ∀ (storage : List (String × String)) (doc : List Element) (nextId : Nat),
        getItem "selectedLanguage" storage = none →
          loadTranslations host fetchJson (initialState storage doc nextId) =
            .ok (setLanguage host "uz"
              { (initialState storage doc nextId : State N) with translations := d }) := by
  constructor
  · intro hmem doc nextId
    refine ⟨_, loadTranslations_of_firstRetrieved host fetchJson _ d hret, ?_⟩
    have hsaved : savedLang (initialState (N := N) (setLanguage host c st).localStorage doc
        nextId).localStorage = c := by
      show savedLang (setLanguage host c st).localStorage = c
      rw [setLanguage_localStorage_found host c st hfound]
      exact savedLang_setItem c _ hc
    rw [hsaved]
    exact setLanguage_currentLang_found host c _ (languageFound_of_mem_keys host _ c hmem)
  · intro storage doc nextId hnone
    have hsaved : savedLang (initialState (N := N) storage doc nextId).localStorage = "uz" := by
      show savedLang storage = "uz"
      simp [savedLang, hnone]
    rw [loadTranslations_of_firstRetrieved host fetchJson _ d hret, hsaved]

theorem persisted_locale_restored_witness :
    languageFound browserHost sampleState "ru" = true ∧
      firstRetrieved lastPathOnly ("translations.json" :: paths) = some sampleDictionary ∧
      ∃ st2 : State Builtin,
        loadTranslations browserHost lastPathOnly
            (initialState (setLanguage browserHost "ru" sampleState).localStorage
              sampleDocument 3) = .ok st2 ∧
          getCurrentLanguage st2 = "ru" :=
  ⟨by decide, rfl,
    (persisted_locale_restored browserHost sampleState "ru" (by decide) (by decide)
      lastPathOnly sampleDictionary rfl).1 (by decide) sampleDocument 3⟩

/-- C6 as stated fails for the empty code: with the dictionary `{"": {...}}`,
`setLanguage("")` succeeds and persists "", but on the next page load the loader
reads `"" || "uz"`, requests "uz", is refused, and `getCurrentLanguage()` returns
"uz" although the retrieved dictionary contains "". -/
theorem empty_code_not_restored :
    languageFound browserHost
        { (initialState [] [] 0 : State Builtin) with translations := emptyCodeDictionary } "" =
        true ∧
      "" ∈ keys emptyCodeDictionary ∧
      ∃ st2 : State Builtin,
        loadTranslations browserHost (fun _ => .ok emptyCodeDictionary)
            (initialState
              (setLanguage browserHost ""
                { (initialState [] [] 0 : State Builtin) with
                  translations := emptyCodeDictionary }).localStorage [] 0) = .ok st2 ∧
          getCurrentLanguage st2 = "uz" ∧ getCurrentLanguage st2 ≠ "" :=
  ⟨by decide, by decide, _, rfl, by decide, by decide⟩

end I18n
